import Mathlib

/-!
# Verification of the bank-statement table-extraction engine

Shallow embedding of `FileParsingService.ts`: field normalizers
(`parseAmount`, `parseDateFlexible`, `fixReference`), the header resolver
(`findColumnIndex`), the continuation merger, the table-document extraction
pipeline (`parseWord`, modelled from the point where the DOCX tables have been
read into lists of rows of cell text), the transaction assembler
(`parseTableData`), the dispatcher (`parseFile`) and the validator
(`validateTransactions`).

Conventions of the embedding:
* JavaScript numbers are modelled as exact rationals (`ℚ`); `Math.round` is
  `jsRound`, rounding half toward positive infinity as in JS.
* JavaScript strings are Lean `String`s; the character-level work happens on
  `List Char`.  The `\s` class is modelled by its ASCII part (`jsWs`).
* Regular-expression tests are hand-translated into executable matchers; each
  matcher carries a comment with the regex literal it models.
* Fallible operations return `Except String`, carrying the thrown message.
-/

namespace FileParsing

/-- The ASCII part of the JavaScript `\s` character class. -/
def jsWs (c : Char) : Bool :=
  c = ' ' || c = '\t' || c = '\n' || c = '\r' || c = '\x0b' || c = '\x0c'

/-- JavaScript word characters (`\w`), used for `\b` word boundaries. -/
def isWordChar (c : Char) : Bool :=
  c.isAlpha || c.isDigit || c = '_'

/-- `String.prototype.trim`, on character lists. -/
def trimChars (cs : List Char) : List Char :=
  ((cs.dropWhile jsWs).reverse.dropWhile jsWs).reverse

/-- `String.prototype.trim`. -/
def jsTrim (s : String) : String :=
  String.mk (trimChars s.data)

/-- Helper for `collapseWs`: the flag records whether the previous character
was whitespace (so the current run has already emitted its single space). -/
def collapseWsAux : Bool → List Char → List Char
  | _, [] => []
  | inRun, c :: cs =>
    if jsWs c then
      if inRun then collapseWsAux true cs
      else ' ' :: collapseWsAux true cs
    else c :: collapseWsAux false cs

/-- `replace(/\s+/g, " ")`: collapse every whitespace run to one space. -/
def collapseWs (cs : List Char) : List Char :=
  collapseWsAux false cs

/-- List-prefix test (Boolean). -/
def isPrefixList : List Char → List Char → Bool
  | [], _ => true
  | _ :: _, [] => false
  | p :: ps, c :: cs => p = c && isPrefixList ps cs

/-- Substring search: `String.prototype.includes(pat)` on character lists. -/
def containsSub (pat : List Char) : List Char → Bool
  | [] => isPrefixList pat []
  | c :: cs => isPrefixList pat (c :: cs) || containsSub pat cs

/-- List-suffix test (Boolean), for `String.prototype.endsWith`. -/
def isSuffixList (pat cs : List Char) : Bool :=
  isPrefixList pat.reverse cs.reverse

/-- `String.prototype.toLowerCase` (ASCII part), on character lists. -/
def lowerChars (cs : List Char) : List Char :=
  cs.map Char.toLower

/-- `Math.round`: round half toward positive infinity.  Stated with the
executable `Rat.floor` so that concrete inputs evaluate by `decide`. -/
def jsRound (q : ℚ) : ℤ := (q + 1 / 2).floor

/-- `jsRound` agrees with the mathematical half-up rounding. -/
theorem jsRound_eq (q : ℚ) : jsRound q = ⌊q + 1 / 2⌋ := by
  rw [jsRound, Rat.floor_def', Rat.floor_def]

/-- Fuel-indexed worker for `stripCurrency`; every step consumes at least one
character, so fuel equal to the list length never runs out. -/
def stripCurrencyFuel : ℕ → List Char → List Char
  | 0, cs => cs
  | _ + 1, [] => []
  | fuel + 1, c :: cs =>
    if isPrefixList ['e', 't', 'b'] (lowerChars (c :: cs)) then
      stripCurrencyFuel fuel (cs.drop 2)
    else if isPrefixList ['b', 'i', 'r', 'r'] (lowerChars (c :: cs)) then
      stripCurrencyFuel fuel (cs.drop 3)
    else if isPrefixList ['u', 's', 'd'] (lowerChars (c :: cs)) then
      stripCurrencyFuel fuel (cs.drop 2)
    else if c = '$' then stripCurrencyFuel fuel cs
    else c :: stripCurrencyFuel fuel cs

/-- `replace(/(etb|birr|usd|\$)/gi, "")`: scan left to right, at each position
try the alternatives in order, case-insensitively, and drop a match. -/
def stripCurrency (cs : List Char) : List Char :=
  stripCurrencyFuel cs.length cs

/-- The characters kept by `replace(/[^\d.,-]/g, "")`. -/
def amountChar (c : Char) : Bool :=
  c.isDigit || c = '.' || c = ',' || c = '-'

/-- Numeric value of a big-endian digit-character list. -/
def digitsToNat (cs : List Char) : ℕ :=
  cs.foldl (fun a c => 10 * a + (c.toNat - '0'.toNat)) 0

/-- Unsigned part of `parseFloat`: longest prefix of the form
`digits [. digits]` or `. digits`; `none` when no digit was consumed (NaN). -/
def parseFloatUnsigned (cs : List Char) : Option ℚ :=
  let ip := cs.takeWhile Char.isDigit
  let rest := cs.dropWhile Char.isDigit
  match rest with
  | c :: rest2 =>
    if c = '.' then
      let fp := rest2.takeWhile Char.isDigit
      if ip = [] ∧ fp = [] then none
      else some ((digitsToNat ip : ℚ) + (digitsToNat fp : ℚ) / 10 ^ fp.length)
    else if ip = [] then none else some (digitsToNat ip : ℚ)
  | [] => if ip = [] then none else some (digitsToNat ip : ℚ)

/-- JavaScript `parseFloat` on the character data the amount pipeline feeds it
(digits, `.` and `-` only): optional leading sign, longest decimal-literal
prefix, `none` for NaN.  Exact rational semantics. -/
def parseFloatQ (cs : List Char) : Option ℚ :=
  match cs with
  | c :: rest =>
    if c = '-' then (parseFloatUnsigned rest).map (fun q => -q)
    else parseFloatUnsigned (c :: rest)
  | [] => parseFloatUnsigned []

/-- `FileParsingService.parseAmount`, on character lists. -/
def parseAmountCore (cs : List Char) : ℚ :=
  if cs = [] then 0
  else
    let t1 := stripCurrency cs
    let t2 := trimChars (t1.filter amountChar)
    if t2 = [] then 0
    else
      let t3 :=
        if t2.contains ',' && t2.contains '.' then t2.filter (· ≠ ',')
        else if t2.contains ',' then
          let parts := t2.splitOn ','
          if parts.length > 1 ∧ (parts.getLastD []).length = 2 then
            List.intercalate ['.'] parts
          else t2.filter (· ≠ ',')
        else t2
      match parseFloatQ t3 with
      | none => 0
      | some num => (jsRound (num * 100) : ℚ) / 100

/-- `FileParsingService.parseAmount`. -/
def parseAmount (s : String) : ℚ := parseAmountCore s.data

/-! ## Decimal rendering of naturals and of 2-decimal amounts -/

/-- Little-endian decimal digit characters of `n`; the fuel only bounds the
recursion depth and any `fuel ≥ n` gives the exact digits. -/
def natDigitsRev : ℕ → ℕ → List Char
  | 0, _ => []
  | fuel + 1, n => if n = 0 then [] else Nat.digitChar (n % 10) :: natDigitsRev fuel (n / 10)

/-- Decimal digit characters of a natural number (`String(n)` in JS). -/
def natToChars (n : ℕ) : List Char :=
  if n = 0 then ['0'] else (natDigitsRev n n).reverse

/-- Decimal string of a natural number. -/
def natToString (n : ℕ) : String := String.mk (natToChars n)

/-- The unsigned body of the decimal rendering of `a/100`: integer part,
then the one or two significant fractional digits, trailing zeros
omitted. -/
def amountBody (a : ℕ) : List Char :=
  if a % 100 = 0 then natToChars (a / 100)
  else if a % 100 % 10 = 0 then
    natToChars (a / 100) ++ ['.', Nat.digitChar (a % 100 / 10)]
  else
    natToChars (a / 100) ++ ['.', Nat.digitChar (a % 100 / 10), Nat.digitChar (a % 100 % 10)]

/-- JavaScript `String(x)` for a number that is an integer multiple of
`1/100` (every `parseAmount` result): optional sign, then the shortest
decimal rendering, as JS number-to-string produces for such values. -/
def renderAmount (q : ℚ) : String :=
  let k : ℤ := (q * 100).floor
  String.mk ((if k < 0 then ['-'] else []) ++ amountBody k.natAbs)

/-! ## Date normalizer (`parseDateFlexible`, `monthNameToNumber`)

The three anchored date regexes are hand-translated into `Option`-returning
matchers.  Every quantified atom (`\d{...}`, `[A-Za-z]{3,}`, `\s+`) is
followed either by a disjoint character class or by the anchor `$`, so
greedy matching with backtracking coincides with: take the maximal run of
the class and check its length against the bounds. -/

/-- The `[-\/]` date-separator class: `-` or `/`. -/
def sepChar (c : Char) : Bool := c = '-' || c = '/'

/-- `^(\d{4})[-\/](\d{1,2})[-\/](\d{1,2})$` with its three capture groups. -/
def ymdMatch (cs : List Char) : Option (List Char × List Char × List Char) :=
  let y := cs.takeWhile Char.isDigit
  let r1 := cs.dropWhile Char.isDigit
  if y.length = 4 then
    match r1 with
    | s1 :: r2 =>
      if sepChar s1 then
        let m := r2.takeWhile Char.isDigit
        let r3 := r2.dropWhile Char.isDigit
        if 1 ≤ m.length ∧ m.length ≤ 2 then
          match r3 with
          | s2 :: r4 =>
            if sepChar s2 then
              let d := r4.takeWhile Char.isDigit
              let r5 := r4.dropWhile Char.isDigit
              if 1 ≤ d.length ∧ d.length ≤ 2 ∧ r5 = [] then some (y, m, d) else none
            else none
          | [] => none
        else none
      else none
    | [] => none
  else none

/-- `^(\d{1,2})[-\/](\d{1,2})[-\/](\d{4})$` with its three capture groups. -/
def dmyMatch (cs : List Char) : Option (List Char × List Char × List Char) :=
  let d := cs.takeWhile Char.isDigit
  let r1 := cs.dropWhile Char.isDigit
  if 1 ≤ d.length ∧ d.length ≤ 2 then
    match r1 with
    | s1 :: r2 =>
      if sepChar s1 then
        let m := r2.takeWhile Char.isDigit
        let r3 := r2.dropWhile Char.isDigit
        if 1 ≤ m.length ∧ m.length ≤ 2 then
          match r3 with
          | s2 :: r4 =>
            if sepChar s2 then
              let y := r4.takeWhile Char.isDigit
              let r5 := r4.dropWhile Char.isDigit
              if y.length = 4 ∧ r5 = [] then some (d, m, y) else none
            else none
          | [] => none
        else none
      else none
    | [] => none
  else none

/-- `^(\d{1,2})\s+([A-Za-z]{3,})\s+(\d{2,4})$` with its three capture
groups (`\s` modelled by its ASCII part `jsWs`). -/
def longMatch (cs : List Char) : Option (List Char × List Char × List Char) :=
  let d := cs.takeWhile Char.isDigit
  let r1 := cs.dropWhile Char.isDigit
  if 1 ≤ d.length ∧ d.length ≤ 2 then
    let w1 := r1.takeWhile jsWs
    let r2 := r1.dropWhile jsWs
    if 1 ≤ w1.length then
      let name := r2.takeWhile Char.isAlpha
      let r3 := r2.dropWhile Char.isAlpha
      if 3 ≤ name.length then
        let w2 := r3.takeWhile jsWs
        let r4 := r3.dropWhile jsWs
        if 1 ≤ w2.length then
          let y := r4.takeWhile Char.isDigit
          let r5 := r4.dropWhile Char.isDigit
          if 2 ≤ y.length ∧ y.length ≤ 4 ∧ r5 = [] then some (d, name, y) else none
        else none
      else none
    else none
  else none

/-- The month-name prefix table of `monthNameToNumber`, in source order. -/
def monthTable : List (List Char × List Char) :=
  [(['j', 'a', 'n'], ['0', '1']), (['j', 'a', 'n', 'u', 'a', 'r', 'y'], ['0', '1']),
   (['f', 'e', 'b'], ['0', '2']), (['f', 'e', 'b', 'r', 'u', 'a', 'r', 'y'], ['0', '2']),
   (['m', 'a', 'r'], ['0', '3']), (['m', 'a', 'r', 'c', 'h'], ['0', '3']),
   (['a', 'p', 'r'], ['0', '4']), (['a', 'p', 'r', 'i', 'l'], ['0', '4']),
   (['m', 'a', 'y'], ['0', '5']),
   (['j', 'u', 'n'], ['0', '6']), (['j', 'u', 'n', 'e'], ['0', '6']),
   (['j', 'u', 'l'], ['0', '7']), (['j', 'u', 'l', 'y'], ['0', '7']),
   (['a', 'u', 'g'], ['0', '8']), (['a', 'u', 'g', 'u', 's', 't'], ['0', '8']),
   (['s', 'e', 'p'], ['0', '9']), (['s', 'e', 'p', 't'], ['0', '9']),
   (['s', 'e', 'p', 't', 'e', 'm', 'b', 'e', 'r'], ['0', '9']),
   (['o', 'c', 't'], ['1', '0']), (['o', 'c', 't', 'o', 'b', 'e', 'r'], ['1', '0']),
   (['n', 'o', 'v'], ['1', '1']), (['n', 'o', 'v', 'e', 'm', 'b', 'e', 'r'], ['1', '1']),
   (['d', 'e', 'c'], ['1', '2']), (['d', 'e', 'c', 'e', 'm', 'b', 'e', 'r'], ['1', '2'])]

/-- `FileParsingService.monthNameToNumber`: first table key that is a prefix
of the lowercased name wins; unknown names default to `"01"`. -/
def monthNameToNumber (name : List Char) : List Char :=
  match monthTable.find? (fun p => isPrefixList p.1 (lowerChars name)) with
  | some p => p.2
  | none => ['0', '1']

/-- `padStart(2, "0")`. -/
def padStart2 (cs : List Char) : List Char :=
  List.replicate (2 - cs.length) '0' ++ cs

/-- `FileParsingService.parseDateFlexible`. -/
def parseDateFlexible (s : String) : String :=
  if s = "" then ""
  else
    let raw := collapseWs (trimChars s.data)
    match ymdMatch raw with
    | some (y, m, d) => String.mk (y ++ '-' :: (padStart2 m ++ '-' :: padStart2 d))
    | none =>
      match dmyMatch raw with
      | some (d, m, y) => String.mk (y ++ '-' :: (padStart2 m ++ '-' :: padStart2 d))
      | none =>
        match longMatch raw with
        | some (d, monthName, yRaw) =>
          let y := if yRaw.length = 2 then '2' :: '0' :: yRaw else yRaw
          let m := monthNameToNumber monthName
          String.mk (y ++ '-' :: (m ++ '-' :: padStart2 d))
        | none => String.mk raw

/-! ## Reference cleanup (`fixReference`) -/

/-- The `[-\\\/]` class of the reference-collapsing regex. -/
def refChar (c : Char) : Bool := c = '-' || c = '\\' || c = '/'

/-- `replace(/[-\\\/]{2,}/g, "-")`: a run of two or more `-`, `\`, `/`
characters becomes a single `-`; a lone one is kept.  The flag records that
the current run has already emitted its dash. -/
def collapseRefRuns : Bool → List Char → List Char
  | _, [] => []
  | skipping, c :: cs =>
    if refChar c then
      if skipping then collapseRefRuns true cs
      else
        match cs with
        | c2 :: _ =>
          if refChar c2 then '-' :: collapseRefRuns true cs
          else c :: collapseRefRuns false cs
        | [] => [c]
    else c :: collapseRefRuns false cs

/-- `FileParsingService.fixReference`: drop all whitespace, then collapse
separator runs. -/
def fixReference (ref : String) : String :=
  if ref = "" then ""
  else String.mk (collapseRefRuns false (ref.data.filter (fun c => !jsWs c)))

/-! ## Unanchored regex tests used by the continuation merger

`dateRegex.test` and `amountRegex.test` search for a match anywhere in the
cell.  Both patterns start with `\b` followed by a digit, so a match can
only begin at a position whose previous character is a non-word character
(or at the start); the searcher threads that one-character context. -/

/-- A trailing `\b` after a digit: next character absent or not a word
character. -/
def boundaryAfter : List Char → Bool
  | [] => true
  | c :: _ => !isWordChar c

/-- First alternative of `dateRegex`: `\d{1,2}[-\/]\d{1,2}[-\/]\d{2,4}` with
the trailing `\b`.  Each digit run is maximal, so the length bounds plus the
following separator or boundary are exactly the backtracking semantics. -/
def dateAlt1 (cs : List Char) : Bool :=
  let d1 := cs.takeWhile Char.isDigit
  let r1 := cs.dropWhile Char.isDigit
  decide (1 ≤ d1.length ∧ d1.length ≤ 2) &&
    match r1 with
    | s1 :: r2 =>
      sepChar s1 &&
        (let d2 := r2.takeWhile Char.isDigit
         let r3 := r2.dropWhile Char.isDigit
         decide (1 ≤ d2.length ∧ d2.length ≤ 2) &&
           match r3 with
           | s2 :: r4 =>
             sepChar s2 &&
               (let d3 := r4.takeWhile Char.isDigit
                let r5 := r4.dropWhile Char.isDigit
                decide (2 ≤ d3.length ∧ d3.length ≤ 4) && boundaryAfter r5)
           | [] => false)
    | [] => false

/-- Second alternative of `dateRegex`: `\d{1,2}\s+[A-Z]{3}\s+\d{2,4}` with
the trailing `\b`. -/
def dateAlt2 (cs : List Char) : Bool :=
  let d1 := cs.takeWhile Char.isDigit
  let r1 := cs.dropWhile Char.isDigit
  decide (1 ≤ d1.length ∧ d1.length ≤ 2) &&
    (let w1 := r1.takeWhile jsWs
     let r2 := r1.dropWhile jsWs
     decide (1 ≤ w1.length) &&
       match r2 with
       | u1 :: u2 :: u3 :: r3 =>
         u1.isUpper && u2.isUpper && u3.isUpper &&
           (let w2 := r3.takeWhile jsWs
            let r4 := r3.dropWhile jsWs
            decide (1 ≤ w2.length) &&
              (let y := r4.takeWhile Char.isDigit
               let r5 := r4.dropWhile Char.isDigit
               decide (2 ≤ y.length ∧ y.length ≤ 4) && boundaryAfter r5))
       | _ => false)

/-- Third alternative of `dateRegex`: `\d{4}[-\/]\d{1,2}[-\/]\d{1,2}` with
the trailing `\b`. -/
def dateAlt3 (cs : List Char) : Bool :=
  let y := cs.takeWhile Char.isDigit
  let r1 := cs.dropWhile Char.isDigit
  decide (y.length = 4) &&
    match r1 with
    | s1 :: r2 =>
      sepChar s1 &&
        (let m := r2.takeWhile Char.isDigit
         let r3 := r2.dropWhile Char.isDigit
         decide (1 ≤ m.length ∧ m.length ≤ 2) &&
           match r3 with
           | s2 :: r4 =>
             sepChar s2 &&
               (let d := r4.takeWhile Char.isDigit
                let r5 := r4.dropWhile Char.isDigit
                decide (1 ≤ d.length ∧ d.length ≤ 2) && boundaryAfter r5)
           | [] => false)
    | [] => false

/-- Match one of the three `dateRegex` alternatives at this position. -/
def dateAltsAt (cs : List Char) : Bool :=
  dateAlt1 cs || dateAlt2 cs || dateAlt3 cs

/-- Search for a match of a `\b`-anchored pattern at any position: the
previous character (`none` at the start) must not be a word character. -/
def searchWithBoundary (matchAt : List Char → Bool) : Option Char → List Char → Bool
  | _, [] => false
  | prev, c :: cs =>
    ((match prev with
      | none => true
      | some p => !isWordChar p) &&
      matchAt (c :: cs)) ||
    searchWithBoundary matchAt (some c) cs

/-- `dateRegex.test`:
`/\b(\d{1,2}[-\/]\d{1,2}[-\/]\d{2,4}|\d{1,2}\s+[A-Z]{3}\s+\d{2,4}|\d{4}[-\/]\d{1,2}[-\/]\d{1,2})\b/`. -/
def dateRegexTest (s : String) : Bool :=
  searchWithBoundary dateAltsAt none s.data

/-- `amountRegex` match attempt at one position:
`\b\d{1,3}(,\d{3})*(\.\d{2})?\b`.  Because `,` and `.` are themselves
non-word characters, whenever a comma group or the decimal group could
extend a match, the match may instead stop right after the leading digit
group with its `\b` satisfied; so a match exists at this position precisely
when the maximal digit run has length 1–3 and is followed by a non-word
character or the end. -/
def amountMatchAt (cs : List Char) : Bool :=
  let d := cs.takeWhile Char.isDigit
  let r := cs.dropWhile Char.isDigit
  decide (1 ≤ d.length ∧ d.length ≤ 3) && boundaryAfter r

/-- `amountRegex.test`: `/\b\d{1,3}(,\d{3})*(\.\d{2})?\b/`. -/
def amountRegexTest (s : String) : Bool :=
  searchWithBoundary amountMatchAt none s.data

/-! ## Data model -/

/-- `ParsedTransaction` of `FileParsingService.ts`; optional fields are
`Option`, amounts are exact rationals. -/
structure ParsedTransaction where
  bookDate : String
  valueDate : Option String
  reference : String
  description : String
  debit : ℚ
  credit : ℚ
  closingBalance : Option ℚ
deriving DecidableEq, Repr

/-- An unstructured `(headers, rows)` grid as produced by an extractor. -/
structure RawGrid where
  headers : List String
  rows : List (List String)
deriving DecidableEq, Repr

/-- `ParsedTable` of `FileParsingService.ts`. -/
structure ParsedTable where
  headers : List String
  rows : List (List String)
  transactions : List ParsedTransaction
deriving DecidableEq, Repr

/-! ## Header resolver -/

/-- `FileParsingService.findColumnIndex`: first candidate name contained in
some header wins; `-1` when no candidate matches. -/
def findColumnIndex (headers : List String) : List String → ℤ
  | [] => -1
  | name :: rest =>
    match headers.findIdx? (fun h => containsSub (lowerChars name.data) h.data) with
    | some idx => (idx : ℤ)
    | none => findColumnIndex headers rest

/-! ## Continuation merger (the grouping loop of `parseWord`) -/

/-- JS array read `row[i]` with `undefined` coerced to `""` (`row[i] || ""`). -/
def cellAtNat (row : List String) (i : ℕ) : String := row.getD i ""

/-- JS array read at a possibly negative index. -/
def cellAtZ (row : List String) (i : ℤ) : String :=
  if 0 ≤ i then cellAtNat row i.toNat else ""

/-- JS array write `row[i] = v`: in range it replaces, past the end it
extends the array, the holes reading back as empty strings. -/
def setCell (row : List String) (i : ℕ) (v : String) : List String :=
  if i < row.length then row.set i v
  else row ++ List.replicate (i - row.length) "" ++ [v]

/-- `row.join(" ")`. -/
def joinSpace (row : List String) : String := String.intercalate " " row

/-- Merge the non-blank cells of a continuation row into the description
column of `target`:
`target[descIndex] = ((target[descIndex] || "") + " " + parts.join(" ")).trim()`
where `descIndex` defaults to `2` when the description column is
unresolved, and nothing happens when every cell is blank. -/
def mergeDescIntoRow (descriptionIndex : ℤ) (target row : List String) : List String :=
  let descIdx : ℕ := if 0 ≤ descriptionIndex then descriptionIndex.toNat else 2
  let descParts := row.filter (fun c => jsTrim c ≠ "")
  if descParts ≠ [] then
    setCell target descIdx (jsTrim (cellAtNat target descIdx ++ " " ++ joinSpace descParts))
  else target

/-- `if (!block[idx] && amountRegex.test(nextRow[idx] || "")) block[idx] =
nextRow[idx]`.  A negative `idx` never patches: the read on `nextRow` is
`""` and the amount regex rejects the empty string. -/
def patchAmountCell (block nextRow : List String) (idx : ℤ) : List String :=
  if cellAtZ block idx = "" && amountRegexTest (cellAtZ nextRow idx) then
    if 0 ≤ idx then setCell block idx.toNat (cellAtZ nextRow idx) else block
  else block

/-- The body of the `while` look-ahead: a continuation row is folded into
the open block — description merge first, then the debit, credit and
balance patches, in source order. -/
def absorbContinuation (descriptionIndex debitIndex creditIndex balanceIndex : ℤ)
    (block nextRow : List String) : List String :=
  let b1 := mergeDescIntoRow descriptionIndex block nextRow
  let b2 := patchAmountCell b1 nextRow debitIndex
  let b3 := patchAmountCell b2 nextRow creditIndex
  patchAmountCell b3 nextRow balanceIndex

/-- The grouping loop of `parseWord` (a `for` loop with an inner `while`),
threaded as a single pass with the currently open block as an explicit
accumulator.  A dated row closes the open block and opens a new one; a
dateless row is absorbed into the open block exactly as the `while` body
does; a dateless row with no open block matches the JS `else` branch:
merged (description only) into the last grouped row when one exists,
dropped otherwise.  The correspondence with the JS loop: after a dated row,
the `while` consumes every following dateless row into the block and pushes
the block before the next dated row is examined, which is precisely this
accumulator discipline. -/
def mergeLoop (descriptionIndex debitIndex creditIndex balanceIndex : ℤ) :
    List (List String) → Option (List String) → List (List String) → List (List String)
  | grouped, current, [] =>
    grouped ++ (match current with
      | some b => [b]
      | none => [])
  | grouped, current, row :: rest =>
    if dateRegexTest (cellAtZ row 0) then
      mergeLoop descriptionIndex debitIndex creditIndex balanceIndex
        (grouped ++ (match current with
          | some b => [b]
          | none => []))
        (some row) rest
    else
      match current with
      | some b =>
        mergeLoop descriptionIndex debitIndex creditIndex balanceIndex grouped
          (some (absorbContinuation descriptionIndex debitIndex creditIndex balanceIndex b row))
          rest
      | none =>
        if grouped ≠ [] then
          mergeLoop descriptionIndex debitIndex creditIndex balanceIndex
            (grouped.dropLast ++ [mergeDescIntoRow descriptionIndex (grouped.getLastD []) row])
            none rest
        else
          mergeLoop descriptionIndex debitIndex creditIndex balanceIndex grouped none rest

/-- The continuation merger: group padded physical rows into logical
transaction rows (lines 165–213 of the source). -/
def mergeContinuations (descriptionIndex debitIndex creditIndex balanceIndex : ℤ)
    (paddedRows : List (List String)) : List (List String) :=
  mergeLoop descriptionIndex debitIndex creditIndex balanceIndex [] none paddedRows

/-- `page \d+` as a substring of the (already lowercased) joined row text. -/
def containsPageNum : List Char → Bool
  | [] => false
  | c :: cs =>
    (isPrefixList ['p', 'a', 'g', 'e', ' '] (c :: cs) &&
      match cs.drop 4 with
      | d :: _ => d.isDigit
      | [] => false) ||
    containsPageNum cs

/-- The boilerplate filter applied after grouping:
`/(opening balance|closing balance|period start|period end|page \d+)/i` on
the lowercased joined row text. -/
def isBoilerplate (r : List String) : Bool :=
  let text := lowerChars (joinSpace r).data
  containsSub ['o', 'p', 'e', 'n', 'i', 'n', 'g', ' ', 'b', 'a', 'l', 'a', 'n', 'c', 'e'] text ||
  containsSub ['c', 'l', 'o', 's', 'i', 'n', 'g', ' ', 'b', 'a', 'l', 'a', 'n', 'c', 'e'] text ||
  containsSub ['p', 'e', 'r', 'i', 'o', 'd', ' ', 's', 't', 'a', 'r', 't'] text ||
  containsSub ['p', 'e', 'r', 'i', 'o', 'd', ' ', 'e', 'n', 'd'] text ||
  containsPageNum text

/-- The row filter of `finalRows`: not boilerplate, and at least one
non-blank cell. -/
def finalRowFilter (r : List String) : Bool :=
  !isBoilerplate r && r.any (fun c => jsTrim c ≠ "")

/-! ## Transaction assembler (`parseTableData`) -/

/-- The row accessor of `parseTableData`:
`(idx) => (idx >= 0 && idx < row.length ? (row[idx] || "").trim() : "")`. -/
def getCellTrim (row : List String) (idx : ℤ) : String :=
  if 0 ≤ idx ∧ idx.toNat < row.length then jsTrim (cellAtNat row idx.toNat) else ""

/-- One row of the `parseTableData` loop turned into a transaction,
including the defensive rescan of the joined row text when both amounts
parse to zero. -/
def assembleRow (bookDateIndex valueDateIndex referenceIndex descriptionIndex
    debitIndex creditIndex balanceIndex : ℤ) (row : List String) : ParsedTransaction :=
  let bookDate := parseDateFlexible (getCellTrim row bookDateIndex)
  let valueDateRaw := if valueDateIndex ≠ -1 then getCellTrim row valueDateIndex else ""
  let valueDate := if valueDateRaw ≠ "" then some (parseDateFlexible valueDateRaw) else none
  let reference := fixReference (getCellTrim row referenceIndex)
  let description := getCellTrim row descriptionIndex
  let debit := parseAmount (getCellTrim row debitIndex)
  let credit := parseAmount (getCellTrim row creditIndex)
  let closingBalance :=
    if balanceIndex ≠ -1 then some (parseAmount (getCellTrim row balanceIndex)) else none
  let joined := joinSpace row
  let finalDebit :=
    if debit = 0 ∧ credit = 0 ∧
        containsSub ['d', 'e', 'b', 'i', 't'] (lowerChars joined.data) then
      parseAmount joined
    else debit
  let finalCredit :=
    if debit = 0 ∧ credit = 0 ∧
        containsSub ['c', 'r', 'e', 'd', 'i', 't'] (lowerChars joined.data) then
      parseAmount joined
    else credit
  { bookDate, valueDate, reference, description,
    debit := finalDebit, credit := finalCredit, closingBalance }

/-- `FileParsingService.parseTableData`. -/
def parseTableData (g : RawGrid) : ParsedTable :=
  let normalizedHeaders := g.headers.map (fun h => jsTrim (String.mk (lowerChars h.data)))
  let bookDateIndex := findColumnIndex normalizedHeaders ["book date", "date"]
  let valueDateIndex := findColumnIndex normalizedHeaders ["value date"]
  let referenceIndex := findColumnIndex normalizedHeaders ["reference", "ref"]
  let descriptionIndex := findColumnIndex normalizedHeaders ["description", "details", "narration"]
  let debitIndex := findColumnIndex normalizedHeaders ["debit", "dr", "withdrawal"]
  let creditIndex := findColumnIndex normalizedHeaders ["credit", "cr", "deposit"]
  let balanceIndex := findColumnIndex normalizedHeaders ["balance"]
  { headers := g.headers
    rows := g.rows
    transactions := g.rows.map (assembleRow bookDateIndex valueDateIndex referenceIndex
      descriptionIndex debitIndex creditIndex balanceIndex) }

/-! ## Table-document extraction pipeline (`parseWord`)

The DOCX/XML layer (unzipping `word/document.xml`, walking `w:tbl`, `w:tr`,
`w:tc` and joining the `w:t` runs of each cell) is I/O plumbing; the
pipeline is modelled from the point where each table has become a list of
rows of cell text, exactly the `rows` value of the source's per-table map. -/

/-- The header keyword set of `parseWord`. -/
def headerKeywords : List String :=
  ["book date", "reference", "description", "value date", "debit", "credit", "balance"]

/-- Keyword score of a candidate header row: how many of the keywords occur
in the lowercased joined row text. -/
def rowScore (row : List String) : ℕ :=
  let rowText := lowerChars (joinSpace row).data
  headerKeywords.countP (fun kw => containsSub kw.data rowText)

/-- The header scan of one table: over the first `min 10 rows.length` rows,
keep the first index whose score strictly exceeds every earlier one;
`(-1, 0)` when every row scores zero. -/
def findHeader (rows : List (List String)) : ℤ × ℕ :=
  (List.range (min 10 rows.length)).foldl
    (fun acc i =>
      let score := rowScore (rows.getD i [])
      if score > acc.2 then ((i : ℤ), score) else acc)
    (-1, 0)

/-- The accumulator of the per-table loop of `parseWord`. -/
structure WordScanState where
  chosenHeaders : List String
  globalBestScore : ℕ
  mergedRows : List (List String)
deriving DecidableEq, Repr

/-- One iteration of the per-table loop: skip empty tables and tables whose
best score is zero; otherwise possibly adopt the header and append the
non-blank data rows after the header index. -/
def scanTable (st : WordScanState) (rows : List (List String)) : WordScanState :=
  if rows = [] then st
  else
    let hdr := findHeader rows
    if hdr.1 = -1 then st
    else
      let headerRow := (rows.getD hdr.1.toNat []).map jsTrim
      let st1 :=
        if st.chosenHeaders = [] ∨ hdr.2 > st.globalBestScore then
          { st with chosenHeaders := headerRow, globalBestScore := hdr.2 }
        else st
      { st1 with
        mergedRows := st1.mergedRows ++
          (rows.drop (hdr.1.toNat + 1)).filter (fun r => r.any (fun c => jsTrim c ≠ "")) }

/-- `Math.max(...rows.map((r) => r.length))` over a row set (0 when empty). -/
def maxCols (rows : List (List String)) : ℕ :=
  rows.foldl (fun a r => max a r.length) 0

/-- `FileParsingService.parseWord` from extracted tables onward: header
scoring and multi-table merging, generic-header synthesis, padding, the
continuation merger, the boilerplate filter, and final assembly. -/
def parseWordTables (tables : List (List (List String))) : Except String ParsedTable :=
  if tables = [] then .error "No tables found in Word document."
  else
    let st := tables.foldl scanTable ⟨[], 0, []⟩
    if st.mergedRows = [] then .error "No transactions found across tables"
    else
      let chosenHeaders0 :=
        if st.chosenHeaders = [] then
          (List.range (maxCols st.mergedRows)).map (fun i => "Column " ++ natToString (i + 1))
        else st.chosenHeaders
      let chosenHeaders := chosenHeaders0.map (fun h => jsTrim (String.mk (collapseWs h.data)))
      let normalizedHeaderLower := chosenHeaders.map (fun h => jsTrim (String.mk (lowerChars h.data)))
      let descriptionIndex := findColumnIndex normalizedHeaderLower ["description", "details", "narration"]
      let debitIndex := findColumnIndex normalizedHeaderLower ["debit", "dr", "withdrawal"]
      let creditIndex := findColumnIndex normalizedHeaderLower ["credit", "cr", "deposit"]
      let balanceIndex := findColumnIndex normalizedHeaderLower ["balance"]
      let headerLen := max chosenHeaders.length (maxCols st.mergedRows)
      let paddedRows := st.mergedRows.map
        (fun r => (List.range headerLen).map (fun i => jsTrim (cellAtNat r i)))
      let groupedRows :=
        mergeContinuations descriptionIndex debitIndex creditIndex balanceIndex paddedRows
      let finalRows := groupedRows.filter finalRowFilter
      .ok (parseTableData ⟨chosenHeaders, finalRows⟩)

/-! ## Plain-text columnar extractor (the PDF fallback) -/

/-- Fuel-indexed splitter for `split(/\s{2,}|\t/)`: a whitespace run of
length at least two, or a single tab, separates columns; a lone non-tab
whitespace character stays inside its column.  Fuel equal to the input
length never runs out. -/
def splitColsFuel : ℕ → List Char → List Char → List (List Char)
  | 0, acc, _ => [acc.reverse]
  | _ + 1, acc, [] => [acc.reverse]
  | fuel + 1, acc, c :: cs =>
    if jsWs c then
      let run := (c :: cs).takeWhile jsWs
      let rest := (c :: cs).dropWhile jsWs
      if 2 ≤ run.length then acc.reverse :: splitColsFuel fuel [] rest
      else if c = '\t' then acc.reverse :: splitColsFuel fuel [] cs
      else splitColsFuel fuel (c :: acc) cs
    else splitColsFuel fuel (c :: acc) cs

/-- `line.split(/\s{2,}|\t/).map((s) => s.trim())`. -/
def splitCols (cs : List Char) : List String :=
  (splitColsFuel cs.length [] cs).map (fun t => jsTrim (String.mk t))

/-- `FileParsingService.extractTableFromText`: split into trimmed non-empty
lines; the first line becomes the headers and the rest the rows, each
column-split on two-or-more whitespace or tab. -/
def extractTableFromText (text : String) : RawGrid :=
  let lines := ((text.data.splitOn '\n').map trimChars).filter (· ≠ [])
  match lines with
  | [] => ⟨[], []⟩
  | l0 :: rest => ⟨splitCols l0, rest.map splitCols⟩

/-! ## Dispatcher (`parseFile`) and the stubbed PDF path -/

/-- A parse input: declared MIME type, filename, and the content under the
three views the extractors consume (raw text for the PDF path, extracted
tables for the DOCX path, the first-sheet grid for the spreadsheet path). -/
structure InputFile where
  name : String
  type : String
  text : String
  tables : List (List (List String))
  sheet : List (List String)
deriving DecidableEq, Repr

/-- The message of the `pdfParse` stub. -/
def pdfUnavailableMsg : String :=
  "PDF parsing is not available in the browser. Use server-side parsing or convert to Word/Excel."

/-- The `pdfParse` stub at the top of the source file: it unconditionally
throws, whatever buffer it is given.  The `ok` payload stands for the
extracted text a real implementation would return. -/
def pdfParseStub (_contents : String) : Except String String :=
  .error pdfUnavailableMsg

/-- `FileParsingService.parsePDF`:
text extraction via `pdfParse`, then the plain-text columnar extractor. -/
def parsePDF (f : InputFile) : Except String ParsedTable :=
  match pdfParseStub f.text with
  | .error e => .error e
  | .ok text => .ok (parseTableData (extractTableFromText text))

/-- `FileParsingService.parseExcel`, from the first-sheet grid onward. -/
def parseExcel (f : InputFile) : Except String ParsedTable :=
  if f.sheet = [] then .error "No data found in Excel file"
  else
    .ok (parseTableData
      ⟨(f.sheet.headD []).map jsTrim, f.sheet.tail.map (fun r => r.map jsTrim)⟩)

/-- `FileParsingService.parseFile`: dispatch on MIME type, then lowercased
filename extension, in source order. -/
def parseFile (f : InputFile) : Except String ParsedTable :=
  let fileName := lowerChars f.name.data
  if f.type = "application/pdf" || isSuffixList ['.', 'p', 'd', 'f'] fileName then
    parsePDF f
  else if f.type = "application/vnd.openxmlformats-officedocument.wordprocessingml.document" ||
      isSuffixList ['.', 'd', 'o', 'c', 'x'] fileName then
    parseWordTables f.tables
  else if f.type = "application/vnd.ms-excel" ||
      f.type = "application/vnd.openxmlformats-officedocument.spreadsheetml.sheet" ||
      isSuffixList ['.', 'x', 'l', 's'] fileName ||
      isSuffixList ['.', 'x', 'l', 's', 'x'] fileName then
    parseExcel f
  else .error "Unsupported file type. Please upload PDF, Word (.docx), or Excel files."

/-! ## Validator (`validateTransactions`) -/

/-- The validation report. -/
structure ValidationResult where
  valid : Bool
  errors : List String
deriving DecidableEq, Repr

/-- A per-record validator message: `Transaction ${index + 1}: ...`. -/
def mkMsg (n : ℕ) (suffix : String) : String :=
  "Transaction " ++ natToString n ++ ": " ++ suffix

/-- `/^\d{4}-\d{2}-\d{2}/.test`: an unanchored-end prefix check. -/
def bookDateFormatOk (s : String) : Bool :=
  match s.data with
  | a :: b :: c :: d :: h1 :: e :: f :: h2 :: g :: k :: _ =>
    a.isDigit && b.isDigit && c.isDigit && d.isDigit && h1 = '-' &&
      e.isDigit && f.isDigit && h2 = '-' && g.isDigit && k.isDigit
  | _ => false

/-- The error messages one transaction contributes, in source order. -/
def recordErrors (index : ℕ) (t : ParsedTransaction) : List String :=
  (if jsTrim t.bookDate = "" then [mkMsg (index + 1) "Missing book date"]
   else if !bookDateFormatOk t.bookDate then
     [mkMsg (index + 1) ("Invalid book date format (" ++ t.bookDate ++ ")")]
   else []) ++
  (if jsTrim t.reference = "" then [mkMsg (index + 1) "Missing reference"] else []) ++
  (if jsTrim t.description = "" then [mkMsg (index + 1) "Missing description"] else []) ++
  (if t.debit = 0 ∧ t.credit = 0 then
    [mkMsg (index + 1) "Both debit and credit are zero"] else []) ++
  (if t.debit < 0 then
    [mkMsg (index + 1) ("Debit amount is negative (" ++ renderAmount t.debit ++ ")")] else []) ++
  (if t.credit < 0 then
    [mkMsg (index + 1) ("Credit amount is negative (" ++ renderAmount t.credit ++ ")")] else [])

/-- `FileParsingService.validateTransactions`. -/
def validateTransactions (ts : List ParsedTransaction) : ValidationResult :=
  if ts = [] then ⟨false, ["No transactions found in the file"]⟩
  else
    let errors := (ts.enum.map (fun p => recordErrors p.1 p.2)).flatten
    ⟨errors = [], errors⟩

end FileParsing

deriving instance DecidableEq for Except

namespace FileParsing

/-! ## Concrete inputs used by the claim theorems -/

/-- The three padded physical rows of the continuation-merging scenario. -/
def contRows : List (List String) :=
  [["01/02/2024", "REF1", "Payment"], ["", "", "to vendor"], ["02/02/2024", "REF2", "Salary"]]

/-- A one-table document: scored header row plus one transaction row. -/
def c2doc : List (List (List String)) :=
  [[["Book Date", "Reference", "Description", "Debit", "Credit", "Balance"],
    ["01/03/2024", "ABC12345", "Shop payment", "100.00", "", "900.00"]]]

/-- The transaction the one-table document is expected to produce. -/
def c2tx : ParsedTransaction :=
  { bookDate := "2024-03-01", valueDate := none, reference := "ABC12345",
    description := "Shop payment", debit := 100, credit := 0, closingBalance := some 900 }

/-- A PDF-typed input file. -/
def pdfFile : InputFile :=
  { name := "statement.pdf", type := "application/pdf", text := "H1  H2\nv1  v2",
    tables := [], sheet := [] }

/-- A grid whose debit cell holds a negative amount. -/
def negDebitGrid : RawGrid :=
  { headers := ["book date", "reference", "description", "debit", "credit"],
    rows := [["01/01/2024", "REF", "x", "-5", "0"]] }

/-- A document with one table of non-blank rows none of which contains any
header keyword. -/
def noHeaderDoc : List (List (List String)) :=
  [[["foo", "bar"], ["baz", "qux"]]]

/-! ## Claim theorems -/

/-- C1: on the padded rows `["01/02/2024","REF1","Payment"]`,
`["","","to vendor"]`, `["02/02/2024","REF2","Salary"]`, with the
description column unresolved (default index 2) and every other role
unresolved, the continuation merger yields exactly two logical rows: the
first physical row with its description extended to `"Payment to vendor"`,
and the third physical row unchanged. -/
theorem c1_continuation_merger :
    mergeContinuations (-1) (-1) (-1) (-1) contRows =
      [["01/02/2024", "REF1", "Payment to vendor"], ["02/02/2024", "REF2", "Salary"]] := by
  decide!

/-- C2: the table-document pipeline on a single table with header
`["Book Date","Reference","Description","Debit","Credit","Balance"]` and
data row `["01/03/2024","ABC12345","Shop payment","100.00","","900.00"]`
returns exactly one transaction, with book date `2024-03-01`, no value
date, reference `ABC12345`, description `Shop payment`, debit `100`,
credit `0` and closing balance `900`. -/
theorem c2_table_document_end_to_end :
    (parseWordTables c2doc).map ParsedTable.transactions = .ok [c2tx] := by
  decide!

/-- C3 counterexample: the claim maps `"1.234,56"` to `1234.56`, but the
code removes every comma when both separators are present, so the value
parses as `1.23456` and rounds to `1.23`. -/
theorem c3_counterexample :
    parseAmount "1.234,56" = 123 / 100 ∧ parseAmount "1.234,56" ≠ 123456 / 100 := by
  constructor
  · decide!
  · decide!

/-- C3 amended: the amount normalizer maps `"1,234.56"` to `1234.56`,
`"1.234,56"` to `1.23` (commas are removed as thousands separators whenever
a dot is also present), `"1,234"` to `1234`, and `"12,34"` to `12.34`. -/
theorem c3_amount_normalizer_amended :
    parseAmount "1,234.56" = 123456 / 100 ∧ parseAmount "1.234,56" = 123 / 100 ∧
      parseAmount "1,234" = 1234 ∧ parseAmount "12,34" = 1234 / 100 := by
  refine ⟨?_, ?_, ?_, ?_⟩ <;> decide!

/-- C7 counterexample: the assembler happily emits a transaction whose
debit is the negative amount `-5` taken verbatim from the debit cell, so
"non-negative debit" fails. -/
theorem c7_counterexample :
    (parseTableData negDebitGrid).transactions.map ParsedTransaction.debit = [-5] ∧
      ((-5 : ℚ) < 0) := by
  constructor
  · decide!
  · decide!

/-- C8 counterexample: a document whose only table has non-blank rows that
all score `0` on the header keywords is skipped entirely, so extraction
fails with `"No transactions found across tables"` instead of synthesizing
`Column 1..N` headers. -/
theorem c8_counterexample :
    rowScore ["foo", "bar"] = 0 ∧ rowScore ["baz", "qux"] = 0 ∧
      parseWordTables noHeaderDoc = .error "No transactions found across tables" := by
  refine ⟨?_, ?_, ?_⟩ <;> decide!

/-- C4 counterexample: on a PDF-typed file, `parseFile` does not return the
line-splitting fallback table — it throws the `pdfParse` stub's error. -/
theorem c4_counterexample :
    parseFile pdfFile = .error pdfUnavailableMsg ∧
      parseFile pdfFile ≠ .ok (parseTableData (extractTableFromText pdfFile.text)) := by
  constructor
  · decide!
  · decide!

/-- C4 amended: for every input whose declared MIME type is
`application/pdf` or whose lowercased filename ends in `.pdf`, `parseFile`
always fails with the `pdfParse` stub's message; the degraded
line-splitting fallback (`extractTableFromText`) is implemented but
unreachable. -/
theorem c4_pdf_always_errors (f : InputFile)
    (h : f.type = "application/pdf" ∨
      isSuffixList ['.', 'p', 'd', 'f'] (lowerChars f.name.data) = true) :
    parseFile f = .error pdfUnavailableMsg := by
  have hcond : (f.type = "application/pdf" ||
      isSuffixList ['.', 'p', 'd', 'f'] (lowerChars f.name.data)) = true := by
    rcases h with h | h
    · simp [h]
    · simp [h]
  unfold parseFile
  simp only [hcond, if_pos]
  rfl

/-- Witness for C4: the hypothesis holds of the concrete PDF-typed file and
the theorem applies to it. -/
theorem c4_pdf_always_errors_witness :
    (pdfFile.type = "application/pdf" ∨
      isSuffixList ['.', 'p', 'd', 'f'] (lowerChars pdfFile.name.data) = true) ∧
      parseFile pdfFile = .error pdfUnavailableMsg :=
  ⟨Or.inl (by decide!), c4_pdf_always_errors pdfFile (Or.inl (by decide!))⟩

/-- When every row among the first ten scores zero, the header scan reports
no header. -/
theorem findHeader_of_all_zero {rows : List (List String)}
    (h : ∀ i, i < min 10 rows.length → rowScore (rows.getD i []) = 0) :
    findHeader rows = (-1, 0) := by
  unfold findHeader
  have key : ∀ l : List ℕ, (∀ i ∈ l, rowScore (rows.getD i []) = 0) →
      l.foldl (fun acc i =>
        let score := rowScore (rows.getD i [])
        if score > acc.2 then ((i : ℤ), score) else acc) ((-1 : ℤ), (0 : ℕ)) = (-1, 0) := by
    intro l
    induction l with
    | nil => intro _; rfl
    | cons a l ih =>
      intro hl
      have ha := hl a (List.mem_cons_self a l)
      simp only [List.foldl_cons, ha]
      have : ¬ (0 > ((-1 : ℤ), (0 : ℕ)).2) := by simp
      rw [if_neg this]
      exact ih (fun i hi => hl i (List.mem_cons_of_mem a hi))
  exact key _ (fun i hi => h i (by simpa using (List.mem_range.mp hi)))

/-- A table whose header scan fails contributes nothing to the scan state. -/
theorem scanTable_of_all_zero (st : WordScanState) {rows : List (List String)}
    (h : ∀ i, i < min 10 rows.length → rowScore (rows.getD i []) = 0) :
    scanTable st rows = st := by
  unfold scanTable
  by_cases hr : rows = []
  · rw [if_pos hr]
  · rw [if_neg hr, findHeader_of_all_zero h, if_pos rfl]

/-- C8 amended: when a non-empty table-document has no row in any table
scoring above zero on the header keywords, every table is skipped, so
extraction fails with `"No transactions found across tables"`; the
`Column 1..N` synthesis is unreachable in that situation. -/
theorem c8_no_header_means_error (tables : List (List (List String)))
    (hne : tables ≠ [])
    (hzero : ∀ tbl ∈ tables, ∀ i, i < min 10 tbl.length → rowScore (tbl.getD i []) = 0) :
    parseWordTables tables = .error "No transactions found across tables" := by
  have hfold : tables.foldl scanTable ⟨[], 0, []⟩ = ⟨[], 0, []⟩ := by
    have key : ∀ (l : List (List (List String))) (st : WordScanState),
        (∀ tbl ∈ l, ∀ i, i < min 10 tbl.length → rowScore (tbl.getD i []) = 0) →
        l.foldl scanTable st = st := by
      intro l
      induction l with
      | nil => intro st _; rfl
      | cons a l ih =>
        intro st hl
        rw [List.foldl_cons, scanTable_of_all_zero st (hl a (List.mem_cons_self a l))]
        exact ih st (fun tbl ht => hl tbl (List.mem_cons_of_mem a ht))
    exact key tables _ hzero
  unfold parseWordTables
  rw [if_neg hne, hfold]
  rfl

/-- Witness for C8: the no-header document satisfies both hypotheses and
the theorem applies to it. -/
theorem c8_no_header_means_error_witness :
    (noHeaderDoc ≠ [] ∧
      (∀ tbl ∈ noHeaderDoc, ∀ i, i < min 10 tbl.length → rowScore (tbl.getD i []) = 0)) ∧
      parseWordTables noHeaderDoc = .error "No transactions found across tables" :=
  ⟨⟨by decide!, by decide!⟩, c8_no_header_means_error noHeaderDoc (by decide!) (by decide!)⟩

/-- The final step of `parseAmount` yields an integer multiple of `1/100`
whatever `parseFloat` returned. -/
theorem matchFloat_form (o : Option ℚ) :
    ∃ n : ℤ, (match o with
      | none => (0 : ℚ)
      | some num => (jsRound (num * 100) : ℚ) / 100) = (n : ℚ) / 100 := by
  cases o with
  | none => exact ⟨0, by norm_num⟩
  | some num => exact ⟨jsRound (num * 100), rfl⟩

/-- Every amount the normalizer returns is an integer multiple of `1/100`:
each exit of `parseAmount` is either `0` or a half-up rounding divided by
`100`. -/
theorem parseAmountCore_form (cs : List Char) :
    ∃ n : ℤ, parseAmountCore cs = (n : ℚ) / 100 := by
  unfold parseAmountCore
  by_cases h1 : cs = []
  · exact ⟨0, by simp [h1]⟩
  rw [if_neg h1]
  simp only []
  by_cases h2 : trimChars (List.filter amountChar (stripCurrency cs)) = []
  · exact ⟨0, by rw [if_pos h2]; norm_num⟩
  rw [if_neg h2]
  exact matchFloat_form _

/-- The `String`-level restatement of `parseAmountCore_form`. -/
theorem parseAmount_form (s : String) : ∃ n : ℤ, parseAmount s = (n : ℚ) / 100 :=
  parseAmountCore_form s.data

/-- C7 amended: every transaction the assembler produces has a debit and a
credit that are integer multiples of `1/100` (at most two fractional
digits); they are however not guaranteed to be non-negative — the amount
normalizer passes a leading minus sign through (see the counterexample),
and the validator is the component that flags negative values. -/
theorem c7_amounts_two_decimals (g : RawGrid) (t : ParsedTransaction)
    (ht : t ∈ (parseTableData g).transactions) :
    (∃ n : ℤ, t.debit = (n : ℚ) / 100) ∧ ∃ m : ℤ, t.credit = (m : ℚ) / 100 := by
  obtain ⟨row, -, rfl⟩ := List.mem_map.mp ht
  constructor
  · simp only [assembleRow]
    split
    · exact parseAmount_form _
    · exact parseAmount_form _
  · simp only [assembleRow]
    split
    · exact parseAmount_form _
    · exact parseAmount_form _

/-- The transaction assembled from the negative-debit grid. -/
def negDebitTx : ParsedTransaction :=
  { bookDate := "2024-01-01", valueDate := none, reference := "REF",
    description := "x", debit := -5, credit := 0, closingBalance := none }

/-- Witness for C7: the negative-debit transaction is produced by the
assembler and the theorem applies to it. -/
theorem c7_amounts_two_decimals_witness :
    negDebitTx ∈ (parseTableData negDebitGrid).transactions ∧
      ((∃ n : ℤ, negDebitTx.debit = (n : ℚ) / 100) ∧
        ∃ m : ℤ, negDebitTx.credit = (m : ℚ) / 100) :=
  ⟨by decide!, c7_amounts_two_decimals negDebitGrid negDebitTx (by decide!)⟩

/-! ## Run-decomposition and character-class lemmas -/

/-- `takeWhile` consumes exactly a run that the following character ends. -/
theorem takeWhile_append_of {p : Char → Bool} (xs : List Char) {rest : List Char}
    (hx : ∀ c ∈ xs, p c = true) (hr : ∀ c, rest.head? = some c → p c = false) :
    (xs ++ rest).takeWhile p = xs := by
  induction xs with
  | nil =>
    cases rest with
    | nil => rfl
    | cons r t => simp [List.takeWhile_cons, hr r rfl]
  | cons x xs ih =>
    have hpx := hx x (List.mem_cons_self x xs)
    simp only [List.cons_append, List.takeWhile_cons, hpx, if_true]
    rw [ih (fun c hc => hx c (List.mem_cons_of_mem x hc))]

/-- `dropWhile` drops exactly a run that the following character ends. -/
theorem dropWhile_append_of {p : Char → Bool} (xs : List Char) {rest : List Char}
    (hx : ∀ c ∈ xs, p c = true) (hr : ∀ c, rest.head? = some c → p c = false) :
    (xs ++ rest).dropWhile p = rest := by
  induction xs with
  | nil =>
    cases rest with
    | nil => rfl
    | cons r t => simp [List.dropWhile_cons, hr r rfl]
  | cons x xs ih =>
    have hpx := hx x (List.mem_cons_self x xs)
    simp only [List.cons_append, List.dropWhile_cons, hpx, if_true]
    exact ih (fun c hc => hx c (List.mem_cons_of_mem x hc))

/-- A whitespace character is one of the six ASCII whitespace characters. -/
theorem jsWs_cases {c : Char} (h : jsWs c = true) :
    c = ' ' ∨ c = '\t' ∨ c = '\n' ∨ c = '\r' ∨ c = '\x0b' ∨ c = '\x0c' := by
  simp only [jsWs, Bool.or_eq_true, decide_eq_true_eq] at h
  tauto

/-- Digits are not whitespace. -/
theorem digit_not_ws {c : Char} (h : c.isDigit = true) : jsWs c = false := by
  cases hw : jsWs c with
  | false => rfl
  | true =>
    rcases jsWs_cases hw with h1 | h1 | h1 | h1 | h1 | h1 <;> subst h1 <;>
      exact absurd h (by decide)

/-- Letters are not whitespace. -/
theorem alpha_not_ws {c : Char} (h : c.isAlpha = true) : jsWs c = false := by
  cases hw : jsWs c with
  | false => rfl
  | true =>
    rcases jsWs_cases hw with h1 | h1 | h1 | h1 | h1 | h1 <;> subst h1 <;>
      exact absurd h (by decide)

/-- Letters are not digits. -/
theorem alpha_not_digit {c : Char} (h : c.isAlpha = true) : c.isDigit = false := by
  simp only [Char.isAlpha, Char.isUpper, Char.isLower, Char.isDigit, Bool.or_eq_true,
    Bool.and_eq_true, decide_eq_true_eq] at *
  rcases h with ⟨h1, -⟩ | ⟨h1, -⟩ <;>
    simp only [Bool.and_eq_false_iff, decide_eq_false_iff_not] <;> right <;>
    intro hle <;>
    [have ha := UInt32.le_toNat_of_le (n := c.val) (m := 65) (by decide) h1;
     have ha := UInt32.le_toNat_of_le (n := c.val) (m := 97) (by decide) h1] <;>
    have hb := UInt32.toNat_le_of_le (n := c.val) (m := 57) (by decide) hle <;> omega

/-! ## Shape of the date normalizer's output (claim C5) -/

/-- The groups captured by a successful `ymdMatch` are digit runs with the
lengths its guards enforce. -/
theorem ymdMatch_extract {cs y m d : List Char} (hm : ymdMatch cs = some (y, m, d)) :
    (∀ c ∈ y, c.isDigit = true) ∧ y.length = 4 ∧
    (∀ c ∈ m, c.isDigit = true) ∧ 1 ≤ m.length ∧ m.length ≤ 2 ∧
    (∀ c ∈ d, c.isDigit = true) ∧ 1 ≤ d.length ∧ d.length ≤ 2 := by
  unfold ymdMatch at hm
  rw [Option.ite_none_right_eq_some] at hm
  obtain ⟨hy4, hm⟩ := hm
  cases h1 : List.dropWhile Char.isDigit cs with
  | nil => rw [h1] at hm; exact Option.noConfusion hm
  | cons s1 r2 =>
    rw [h1] at hm
    simp only [Option.ite_none_right_eq_some] at hm
    obtain ⟨hs1, hm2, hm⟩ := hm
    cases h2 : List.dropWhile Char.isDigit r2 with
    | nil => rw [h2] at hm; exact Option.noConfusion hm
    | cons s2 r4 =>
      rw [h2] at hm
      simp only [Option.ite_none_right_eq_some, Option.some.injEq, Prod.mk.injEq] at hm
      obtain ⟨hs2, ⟨hd1, hd2, hd3⟩, hy, hmm, hd⟩ := hm
      subst hy; subst hmm; subst hd
      exact ⟨fun c hc => List.mem_takeWhile_imp hc, hy4,
        fun c hc => List.mem_takeWhile_imp hc, hm2.1, hm2.2,
        fun c hc => List.mem_takeWhile_imp hc, hd1, hd2⟩

/-- The groups captured by a successful `dmyMatch`. -/
theorem dmyMatch_extract {cs y m d : List Char} (hm : dmyMatch cs = some (d, m, y)) :
    (∀ c ∈ d, c.isDigit = true) ∧ 1 ≤ d.length ∧ d.length ≤ 2 ∧
    (∀ c ∈ m, c.isDigit = true) ∧ 1 ≤ m.length ∧ m.length ≤ 2 ∧
    (∀ c ∈ y, c.isDigit = true) ∧ y.length = 4 := by
  unfold dmyMatch at hm
  rw [Option.ite_none_right_eq_some] at hm
  obtain ⟨hdl, hm⟩ := hm
  cases h1 : List.dropWhile Char.isDigit cs with
  | nil => rw [h1] at hm; exact Option.noConfusion hm
  | cons s1 r2 =>
    rw [h1] at hm
    simp only [Option.ite_none_right_eq_some] at hm
    obtain ⟨hs1, hm2, hm⟩ := hm
    cases h2 : List.dropWhile Char.isDigit r2 with
    | nil => rw [h2] at hm; exact Option.noConfusion hm
    | cons s2 r4 =>
      rw [h2] at hm
      simp only [Option.ite_none_right_eq_some, Option.some.injEq, Prod.mk.injEq] at hm
      obtain ⟨hs2, ⟨hy4, hr5⟩, hd, hmm, hy⟩ := hm
      subst hd; subst hmm; subst hy
      exact ⟨fun c hc => List.mem_takeWhile_imp hc, hdl.1, hdl.2,
        fun c hc => List.mem_takeWhile_imp hc, hm2.1, hm2.2,
        fun c hc => List.mem_takeWhile_imp hc, hy4⟩

/-- The groups captured by a successful `longMatch`. -/
theorem longMatch_extract {cs y nm d : List Char} (hm : longMatch cs = some (d, nm, y)) :
    (∀ c ∈ d, c.isDigit = true) ∧ 1 ≤ d.length ∧ d.length ≤ 2 ∧
    (∀ c ∈ nm, c.isAlpha = true) ∧ 3 ≤ nm.length ∧
    (∀ c ∈ y, c.isDigit = true) ∧ 2 ≤ y.length ∧ y.length ≤ 4 := by
  unfold longMatch at hm
  simp only [Option.ite_none_right_eq_some, Option.some.injEq, Prod.mk.injEq] at hm
  obtain ⟨hdl, hw1, hnm, hw2, ⟨hy2, hy4, hr5⟩, hd, hn, hy⟩ := hm
  subst hd; subst hn; subst hy
  exact ⟨fun c hc => List.mem_takeWhile_imp hc, hdl.1, hdl.2,
    fun c hc => List.mem_takeWhile_imp hc, hnm,
    fun c hc => List.mem_takeWhile_imp hc, hy2, hy4⟩

/-- `monthNameToNumber` always yields exactly two digit characters. -/
theorem monthNameToNumber_shape (name : List Char) :
    (∀ c ∈ monthNameToNumber name, c.isDigit = true) ∧
      (monthNameToNumber name).length = 2 := by
  unfold monthNameToNumber
  cases hf : monthTable.find? (fun p => isPrefixList p.1 (lowerChars name)) with
  | none =>
    refine ⟨?_, rfl⟩
    intro c hc
    have hc' : c = '0' ∨ c = '1' := by simpa using hc
    rcases hc' with rfl | rfl
    · decide
    · decide
  | some p =>
    have hp := List.mem_of_find?_eq_some hf
    have key : ∀ q ∈ monthTable, (∀ c ∈ q.2, c.isDigit = true) ∧ q.2.length = 2 := by decide
    exact key p hp

/-- `padStart2` of a 1–2 character run has exactly two characters. -/
theorem padStart2_length {m : List Char} (h2 : m.length ≤ 2) :
    (padStart2 m).length = 2 := by
  simp only [padStart2, List.length_append, List.length_replicate]
  omega

/-- `padStart2` preserves all-digitness (the pad character is `0`). -/
theorem padStart2_digits {m : List Char} (h : ∀ c ∈ m, c.isDigit = true) :
    ∀ c ∈ padStart2 m, c.isDigit = true := by
  intro c hc
  rcases List.mem_append.mp hc with h0 | hm
  · rcases List.eq_of_mem_replicate h0 with rfl
    decide
  · exact h c hm

/-- The code-level hypothesis of claim C5: the trimmed,
whitespace-collapsed input matches one of the three date regexes. -/
def matchesAnyDate (s : String) : Bool :=
  let raw := collapseWs (trimChars s.data)
  (ymdMatch raw).isSome || (dmyMatch raw).isSome || (longMatch raw).isSome

/-- Modelled from the claim's words: a string of the exact form
`YYYY-MM-DD` whose zero-padded month lies in 01..12 and whose zero-padded
day lies in 01..31. -/
def isCanonicalYmd (s : String) : Bool :=
  match s.data with
  | [y1, y2, y3, y4, h1, m1, m2, h2, d1, d2] =>
    y1.isDigit && y2.isDigit && y3.isDigit && y4.isDigit && h1 = '-' &&
      m1.isDigit && m2.isDigit && h2 = '-' && d1.isDigit && d2.isDigit &&
      (let mv := (m1.toNat - 48) * 10 + (m2.toNat - 48)
       let dv := (d1.toNat - 48) * 10 + (d2.toNat - 48)
       decide (1 ≤ mv ∧ mv ≤ 12 ∧ 1 ≤ dv ∧ dv ≤ 31))
  | _ => false

/-- What the date normalizer actually guarantees on a pattern match: a
`-`-separated triple of digit runs, the year 3 or 4 digits, month and day
exactly 2 digits each — with no range validation of their values. -/
def DateShape (s : String) : Prop :=
  ∃ y m d : List Char,
    s.data = y ++ '-' :: (m ++ '-' :: d) ∧
    (∀ c ∈ y, c.isDigit = true) ∧ 3 ≤ y.length ∧ y.length ≤ 4 ∧
    (∀ c ∈ m, c.isDigit = true) ∧ m.length = 2 ∧
    (∀ c ∈ d, c.isDigit = true) ∧ d.length = 2

/-- C5 counterexample: `"2024-13-40"` matches the `YYYY[-\/]M[-\/]D`
pattern, yet the normalizer's output has month `13` and day `40`, outside
the claimed ranges. -/
theorem c5_counterexample :
    matchesAnyDate "2024-13-40" = true ∧
      isCanonicalYmd (parseDateFlexible "2024-13-40") = false := by
  constructor
  · decide!
  · decide!

/-- C5 amended: for every string matching one of the three recognized date
patterns, the normalizer returns a string of the form `Y-MM-DD`: three
`-`-separated digit runs, the year 3 or 4 digits, the month and day
zero-padded to exactly 2 digits — but the month and day values are echoed
without range validation. -/
theorem c5_date_shape_amended (s : String) (h : matchesAnyDate s = true) :
    DateShape (parseDateFlexible s) := by
  by_cases hs : s = ""
  · subst hs; exact absurd h (by decide)
  unfold matchesAnyDate at h
  simp only [Bool.or_eq_true] at h
  simp only [parseDateFlexible, if_neg hs]
  cases hy : ymdMatch (collapseWs (trimChars s.data)) with
  | some t =>
    obtain ⟨y, m, d⟩ := t
    obtain ⟨yd, y4, md, hm1, hm2, dd, hd1, hd2⟩ := ymdMatch_extract hy
    exact ⟨y, padStart2 m, padStart2 d, rfl, yd, by omega, by omega,
      padStart2_digits md, padStart2_length hm2,
      padStart2_digits dd, padStart2_length hd2⟩
  | none =>
    cases hdm : dmyMatch (collapseWs (trimChars s.data)) with
    | some t =>
      obtain ⟨d, m, y⟩ := t
      obtain ⟨dd, hd1, hd2, md, hm1, hm2, yd, y4⟩ := dmyMatch_extract hdm
      exact ⟨y, padStart2 m, padStart2 d, rfl, yd, by omega, by omega,
        padStart2_digits md, padStart2_length hm2,
        padStart2_digits dd, padStart2_length hd2⟩
    | none =>
      cases hl : longMatch (collapseWs (trimChars s.data)) with
      | some t =>
        obtain ⟨d, nm, yRaw⟩ := t
        obtain ⟨dd, hd1, hd2, -, -, yd, hy2, hy4⟩ := longMatch_extract hl
        obtain ⟨mNd, mNl⟩ := monthNameToNumber_shape nm
        dsimp only
        by_cases hyl : yRaw.length = 2
        · rw [if_pos hyl]
          refine ⟨'2' :: '0' :: yRaw, monthNameToNumber nm, padStart2 d, rfl, ?_, ?_, ?_,
            mNd, mNl, padStart2_digits dd, padStart2_length hd2⟩
          · intro c hc
            rcases List.mem_cons.mp hc with rfl | hc
            · decide
            rcases List.mem_cons.mp hc with rfl | hc
            · decide
            exact yd c hc
          · simp [hyl]
          · simp [hyl]
        · rw [if_neg hyl]
          exact ⟨yRaw, monthNameToNumber nm, padStart2 d, rfl, yd, by omega, by omega,
            mNd, mNl, padStart2_digits dd, padStart2_length hd2⟩
      | none =>
        rw [hy, hdm, hl] at h
        simp at h

/-- Witness for C5: `"01/03/2024"` matches the second pattern and the
theorem applies to it. -/
theorem c5_date_shape_amended_witness :
    matchesAnyDate "01/03/2024" = true ∧ DateShape (parseDateFlexible "01/03/2024") :=
  ⟨by decide!, c5_date_shape_amended "01/03/2024" (by decide!)⟩

/-! ## The unknown-month default (claim C10) -/

/-- Whitespace collapsing walks through a run of non-whitespace characters
unchanged (outside a whitespace run). -/
theorem collapseWsAux_false_append {xs rest : List Char}
    (hx : ∀ c ∈ xs, jsWs c = false) :
    collapseWsAux false (xs ++ rest) = xs ++ collapseWsAux false rest := by
  induction xs with
  | nil => rfl
  | cons x t ih =>
    have hxw := hx x (List.mem_cons_self x t)
    simp only [List.cons_append, collapseWsAux, hxw, Bool.false_eq_true, if_false,
      List.cons.injEq, true_and]
    exact ih (fun c hc => hx c (List.mem_cons_of_mem x hc))

/-- Whitespace collapsing on an all non-whitespace list is the identity. -/
theorem collapseWsAux_false_of {xs : List Char} (hx : ∀ c ∈ xs, jsWs c = false) :
    collapseWsAux false xs = xs := by
  have h := @collapseWsAux_false_append xs [] hx
  rw [show collapseWsAux false [] = [] from rfl] at h
  simpa using h

/-- A space opens a whitespace run. -/
theorem collapseWsAux_false_space (rest : List Char) :
    collapseWsAux false (' ' :: rest) = ' ' :: collapseWsAux true rest := by
  simp [collapseWsAux, jsWs]

/-- A non-whitespace character closes a whitespace run. -/
theorem collapseWsAux_true_cons {c : Char} (h : jsWs c = false) (cs : List Char) :
    collapseWsAux true (c :: cs) = c :: collapseWsAux false cs := by
  simp [collapseWsAux, h]

/-- Trimming is the identity when both ends are non-whitespace. -/
theorem trimChars_eq_self {cs : List Char}
    (h1 : ∀ c, cs.head? = some c → jsWs c = false)
    (h2 : ∀ c, cs.getLast? = some c → jsWs c = false) : trimChars cs = cs := by
  unfold trimChars
  have e1 : cs.dropWhile jsWs = cs := by
    cases cs with
    | nil => rfl
    | cons a t =>
      rw [List.dropWhile_cons_of_neg]
      simp [h1 a rfl]
  rw [e1]
  have e2 : cs.reverse.dropWhile jsWs = cs.reverse := by
    cases hr : cs.reverse with
    | nil => rfl
    | cons a t =>
      have ha : cs.getLast? = some a := by
        rw [← List.head?_reverse, hr]
        rfl
      rw [List.dropWhile_cons_of_neg]
      simp [h2 a ha]
  rw [e2, List.reverse_reverse]

/-- C10: an input `D W YYYY` whose month word `W` is alphabetic, at least
three letters long, and starts with no recognized month-name prefix is not
returned unchanged: the date normalizer maps it to `YYYY-01-DD`, silently
defaulting the unknown month to `01`. -/
theorem c10_unknown_month_defaults (dc w y : List Char)
    (hd : dc ≠ [] ∧ dc.length ≤ 2 ∧ ∀ c ∈ dc, c.isDigit = true)
    (hw : 3 ≤ w.length ∧ ∀ c ∈ w, c.isAlpha = true)
    (hmon : ∀ p ∈ monthTable, isPrefixList p.1 (lowerChars w) = false)
    (hy : y.length = 4 ∧ ∀ c ∈ y, c.isDigit = true) :
    parseDateFlexible (String.mk (dc ++ ' ' :: (w ++ ' ' :: y))) =
      String.mk (y ++ '-' :: ('0' :: '1' :: '-' :: padStart2 dc)) ∧
    parseDateFlexible (String.mk (dc ++ ' ' :: (w ++ ' ' :: y))) ≠
      String.mk (dc ++ ' ' :: (w ++ ' ' :: y)) := by
  obtain ⟨hdne, hdlen, hdd⟩ := hd
  obtain ⟨hwlen, hwa⟩ := hw
  obtain ⟨hylen, hyd⟩ := hy
  obtain ⟨d0, dt, rfl⟩ : ∃ a t, dc = a :: t := by
    cases dc with
    | nil => exact absurd rfl hdne
    | cons a t => exact ⟨a, t, rfl⟩
  obtain ⟨w0, wt, rfl⟩ : ∃ a t, w = a :: t := by
    cases w with
    | nil => simp at hwlen
    | cons a t => exact ⟨a, t, rfl⟩
  obtain ⟨y0, yt, rfl⟩ : ∃ a t, y = a :: t := by
    cases y with
    | nil => simp at hylen
    | cons a t => exact ⟨a, t, rfl⟩
  have hd0 : d0 ∈ d0 :: dt := List.mem_cons_self d0 dt
  have hw0 : w0 ∈ w0 :: wt := List.mem_cons_self w0 wt
  have hy0 : y0 ∈ y0 :: yt := List.mem_cons_self y0 yt
  have hdw : ∀ c ∈ d0 :: dt, jsWs c = false := fun c hc => digit_not_ws (hdd c hc)
  have hww : ∀ c ∈ w0 :: wt, jsWs c = false := fun c hc => alpha_not_ws (hwa c hc)
  have hyw : ∀ c ∈ y0 :: yt, jsWs c = false := fun c hc => digit_not_ws (hyd c hc)
  -- the input string is non-empty
  have hs : String.mk ((d0 :: dt) ++ ' ' :: ((w0 :: wt) ++ ' ' :: (y0 :: yt))) ≠ "" := by
    intro he
    have hdat := congrArg String.data he
    simp at hdat
  -- trimming is the identity: both ends are non-whitespace
  have htrim : trimChars ((d0 :: dt) ++ ' ' :: ((w0 :: wt) ++ ' ' :: (y0 :: yt))) =
      (d0 :: dt) ++ ' ' :: ((w0 :: wt) ++ ' ' :: (y0 :: yt)) := by
    refine trimChars_eq_self ?_ ?_
    · intro c hc
      simp only [List.cons_append, List.head?_cons, Option.some.injEq] at hc
      subst hc
      exact hdw d0 hd0
    · intro c hc
      rw [List.getLast?_append_cons] at hc
      rw [show (' ' :: ((w0 :: wt) ++ ' ' :: (y0 :: yt))) =
        ((' ' :: (w0 :: wt)) ++ ' ' :: (y0 :: yt)) from by simp] at hc
      rw [List.getLast?_append_cons] at hc
      rw [show (' ' :: (y0 :: yt)) = ([' '] ++ y0 :: yt) from rfl] at hc
      rw [List.getLast?_append_cons] at hc
      exact hyw c (List.mem_of_getLast?_eq_some hc)
  -- whitespace collapsing is the identity: spaces are isolated
  have hcol : collapseWs ((d0 :: dt) ++ ' ' :: ((w0 :: wt) ++ ' ' :: (y0 :: yt))) =
      (d0 :: dt) ++ ' ' :: ((w0 :: wt) ++ ' ' :: (y0 :: yt)) := by
    unfold collapseWs
    rw [collapseWsAux_false_append hdw, collapseWsAux_false_space,
      List.cons_append w0 wt (' ' :: (y0 :: yt)),
      collapseWsAux_true_cons (hww w0 hw0),
      collapseWsAux_false_append (fun c hc => hww c (List.mem_cons_of_mem w0 hc)),
      collapseWsAux_false_space,
      collapseWsAux_true_cons (hyw y0 hy0),
      collapseWsAux_false_of (fun c hc => hyw c (List.mem_cons_of_mem y0 hc))]
  -- the digit run at the front is exactly `dc`
  have htake_dc : ((d0 :: dt) ++ ' ' :: ((w0 :: wt) ++ ' ' :: (y0 :: yt))).takeWhile
      Char.isDigit = d0 :: dt :=
    takeWhile_append_of (d0 :: dt) hdd (fun c hc => by
      injection hc with hc2
      subst hc2
      decide)
  have hdrop_dc : ((d0 :: dt) ++ ' ' :: ((w0 :: wt) ++ ' ' :: (y0 :: yt))).dropWhile
      Char.isDigit = ' ' :: ((w0 :: wt) ++ ' ' :: (y0 :: yt)) :=
    dropWhile_append_of (d0 :: dt) hdd (fun c hc => by
      injection hc with hc2
      subst hc2
      decide)
  -- the first two anchored matchers fail
  have hymd : ymdMatch ((d0 :: dt) ++ ' ' :: ((w0 :: wt) ++ ' ' :: (y0 :: yt))) = none := by
    unfold ymdMatch
    rw [htake_dc, if_neg (by simp at hdlen ⊢; omega)]
  have hdmy : dmyMatch ((d0 :: dt) ++ ' ' :: ((w0 :: wt) ++ ' ' :: (y0 :: yt))) = none := by
    unfold dmyMatch
    rw [htake_dc, hdrop_dc, if_pos ⟨by simp, hdlen⟩]
    simp [sepChar]
  -- the long-form matcher captures `(dc, w, y)`
  have hlong : longMatch ((d0 :: dt) ++ ' ' :: ((w0 :: wt) ++ ' ' :: (y0 :: yt))) =
      some (d0 :: dt, w0 :: wt, y0 :: yt) := by
    unfold longMatch
    rw [htake_dc, hdrop_dc, if_pos ⟨by simp, hdlen⟩]
    have hsp : ∀ c ∈ [' '], jsWs c = false → False := by intro c hc h; simp at hc; subst hc; simp [jsWs] at h
    have ht1 : (' ' :: ((w0 :: wt) ++ ' ' :: (y0 :: yt))).takeWhile jsWs = [' '] := by
      rw [show (' ' :: ((w0 :: wt) ++ ' ' :: (y0 :: yt))) =
        ([' '] ++ ((w0 :: wt) ++ ' ' :: (y0 :: yt))) from rfl]
      exact takeWhile_append_of [' '] (by intro c hc; simp at hc; subst hc; decide)
        (fun c hc => by injection hc with hc2; subst hc2; exact hww w0 hw0)
    have hdr1 : (' ' :: ((w0 :: wt) ++ ' ' :: (y0 :: yt))).dropWhile jsWs =
        (w0 :: wt) ++ ' ' :: (y0 :: yt) := by
      rw [show (' ' :: ((w0 :: wt) ++ ' ' :: (y0 :: yt))) =
        ([' '] ++ ((w0 :: wt) ++ ' ' :: (y0 :: yt))) from rfl]
      exact dropWhile_append_of [' '] (by intro c hc; simp at hc; subst hc; decide)
        (fun c hc => by injection hc with hc2; subst hc2; exact hww w0 hw0)
    rw [ht1, hdr1, if_pos (by simp)]
    have ht2 : ((w0 :: wt) ++ ' ' :: (y0 :: yt)).takeWhile Char.isAlpha = w0 :: wt :=
      takeWhile_append_of (w0 :: wt) hwa (fun c hc => by
        injection hc with hc2
        subst hc2
        decide)
    have hdr2 : ((w0 :: wt) ++ ' ' :: (y0 :: yt)).dropWhile Char.isAlpha = ' ' :: (y0 :: yt) :=
      dropWhile_append_of (w0 :: wt) hwa (fun c hc => by
        injection hc with hc2
        subst hc2
        decide)
    rw [ht2, hdr2, if_pos hwlen]
    have ht3 : (' ' :: (y0 :: yt)).takeWhile jsWs = [' '] := by
      rw [show (' ' :: (y0 :: yt)) = ([' '] ++ (y0 :: yt)) from rfl]
      exact takeWhile_append_of [' '] (by intro c hc; simp at hc; subst hc; decide)
        (fun c hc => by injection hc with hc2; subst hc2; exact hyw y0 hy0)
    have hdr3 : (' ' :: (y0 :: yt)).dropWhile jsWs = y0 :: yt := by
      rw [show (' ' :: (y0 :: yt)) = ([' '] ++ (y0 :: yt)) from rfl]
      exact dropWhile_append_of [' '] (by intro c hc; simp at hc; subst hc; decide)
        (fun c hc => by injection hc with hc2; subst hc2; exact hyw y0 hy0)
    rw [ht3, hdr3, if_pos (by simp)]
    rw [List.takeWhile_eq_self_iff.mpr hyd, List.dropWhile_eq_nil_iff.mpr hyd]
    rw [if_pos ⟨by omega, by omega, rfl⟩]
  -- the unknown month name falls back to `01`
  have hmonth : monthNameToNumber (w0 :: wt) = ['0', '1'] := by
    unfold monthNameToNumber
    rw [List.find?_eq_none.mpr (fun p hp => by simp [hmon p hp])]
  -- assemble the normalizer's result
  have hres : parseDateFlexible (String.mk ((d0 :: dt) ++ ' ' :: ((w0 :: wt) ++ ' ' :: (y0 :: yt)))) =
      String.mk ((y0 :: yt) ++ '-' :: ('0' :: '1' :: '-' :: padStart2 (d0 :: dt))) := by
    simp only [parseDateFlexible, if_neg hs]
    rw [htrim, hcol, hymd, hdmy, hlong]
    dsimp only
    rw [if_neg (by simp at hylen ⊢; omega), hmonth]
    rfl
  refine ⟨hres, ?_⟩
  rw [hres]
  intro he
  have hchars : (y0 :: yt) ++ '-' :: ('0' :: '1' :: '-' :: padStart2 (d0 :: dt)) =
      (d0 :: dt) ++ ' ' :: ((w0 :: wt) ++ ' ' :: (y0 :: yt)) :=
    congrArg String.data he
  have hw0mem : w0 ∈ (d0 :: dt) ++ ' ' :: ((w0 :: wt) ++ ' ' :: (y0 :: yt)) := by simp
  rw [← hchars] at hw0mem
  have hw0a : w0.isAlpha = true := hwa w0 hw0
  rcases List.mem_append.mp hw0mem with hmem | hmem
  · exact absurd (hyd w0 hmem) (by rw [alpha_not_digit hw0a]; simp)
  · rcases List.mem_cons.mp hmem with rfl | hmem
    · exact absurd hw0a (by decide)
    rcases List.mem_cons.mp hmem with rfl | hmem
    · exact absurd hw0a (by decide)
    rcases List.mem_cons.mp hmem with rfl | hmem
    · exact absurd hw0a (by decide)
    rcases List.mem_cons.mp hmem with rfl | hmem
    · exact absurd hw0a (by decide)
    have hdig := padStart2_digits hdd w0 hmem
    exact absurd hdig (by rw [alpha_not_digit hw0a]; simp)

/-! ## Decimal round-trip (claim C6)

`parseAmount` always returns `n/100` for some integer `n`
(`parseAmount_form`); re-parsing the decimal rendering of such a value
recovers it exactly, which is the idempotence contract. -/

/-- The digit character of `d < 10` is a digit. -/
theorem digitChar_isDigit {d : ℕ} (h : d < 10) : (Nat.digitChar d).isDigit = true := by
  interval_cases d <;> decide

/-- Reading back the digit character of `d < 10`. -/
theorem digitChar_toNat {d : ℕ} (h : d < 10) : (Nat.digitChar d).toNat - '0'.toNat = d := by
  interval_cases d <;> decide

/-- `digitsToNat` peels the last digit. -/
theorem digitsToNat_append (xs : List Char) (c : Char) :
    digitsToNat (xs ++ [c]) = 10 * digitsToNat xs + (c.toNat - '0'.toNat) := by
  unfold digitsToNat
  rw [List.foldl_append]
  rfl

/-- `digitsToNat` of a single digit character. -/
theorem digitsToNat_single (c : Char) : digitsToNat [c] = c.toNat - '0'.toNat := by
  unfold digitsToNat
  simp

/-- `digitsToNat` of two digit characters. -/
theorem digitsToNat_pair (c1 c2 : Char) :
    digitsToNat [c1, c2] = 10 * (c1.toNat - '0'.toNat) + (c2.toNat - '0'.toNat) := by
  unfold digitsToNat
  simp [Nat.mul_comm]

/-- Every character emitted by `natDigitsRev` is a digit. -/
theorem natDigitsRev_digits (fuel : ℕ) : ∀ (n : ℕ), ∀ c ∈ natDigitsRev fuel n, c.isDigit = true := by
  induction fuel with
  | zero => intro n c hc; simp [natDigitsRev] at hc
  | succ fuel ih =>
    intro n c hc
    unfold natDigitsRev at hc
    by_cases h0 : n = 0
    · rw [if_pos h0] at hc
      simp at hc
    · rw [if_neg h0] at hc
      rcases List.mem_cons.mp hc with rfl | hc
      · exact digitChar_isDigit (Nat.mod_lt n (by norm_num))
      · exact ih (n / 10) c hc

/-- Every character of `natToChars n` is a digit. -/
theorem natToChars_digits (n : ℕ) : ∀ c ∈ natToChars n, c.isDigit = true := by
  unfold natToChars
  by_cases h : n = 0
  · rw [if_pos h]
    intro c hc
    simp at hc
    subst hc
    decide
  · rw [if_neg h]
    intro c hc
    exact natDigitsRev_digits n n c (List.mem_reverse.mp hc)

/-- `natToChars` is never empty. -/
theorem natToChars_ne_nil (n : ℕ) : natToChars n ≠ [] := by
  unfold natToChars
  by_cases h : n = 0
  · simp [h]
  · rw [if_neg h]
    cases hn : n with
    | zero => exact absurd hn h
    | succ m =>
      subst hn
      simp [natDigitsRev, h]

/-- Reading the decimal digits of `n` back yields `n`. -/
theorem digitsToNat_natDigitsRev (fuel : ℕ) : ∀ n : ℕ, n ≤ fuel →
    digitsToNat ((natDigitsRev fuel n).reverse) = n := by
  induction fuel with
  | zero =>
    intro n hn
    interval_cases n
    rfl
  | succ fuel ih =>
    intro n hn
    by_cases h0 : n = 0
    · subst h0; rfl
    · unfold natDigitsRev
      rw [if_neg h0, List.reverse_cons, digitsToNat_append,
        ih (n / 10) (by omega), digitChar_toNat (Nat.mod_lt n (by omega))]
      omega

/-- `digitsToNat` inverts `natToChars`. -/
theorem digitsToNat_natToChars (n : ℕ) : digitsToNat (natToChars n) = n := by
  unfold natToChars
  by_cases h : n = 0
  · rw [if_pos h, h]
    rfl
  · rw [if_neg h]
    exact digitsToNat_natDigitsRev n n le_rfl

/-- The characters the renderer can emit: digits, the decimal point, the
sign. -/
def renderChar (c : Char) : Prop :=
  c.isDigit = true ∨ c = '.' ∨ c = '-'

/-- A digit's code point is at most 57. -/
theorem digit_toNat_le {c : Char} (h : c.isDigit = true) : c.toNat ≤ 57 := by
  simp only [Char.isDigit, Bool.and_eq_true, decide_eq_true_eq] at h
  exact UInt32.toNat_le_of_le (by decide) h.2

/-- Lowercasing fixes digits. -/
theorem digit_toLower {c : Char} (h : c.isDigit = true) : c.toLower = c := by
  have hle := digit_toNat_le h
  unfold Char.toLower
  rw [if_neg]
  intro hc
  omega

/-- A renderable character is fixed by lowercasing. -/
theorem renderChar_toLower {c : Char} (h : renderChar c) : c.toLower = c := by
  rcases h with h | rfl | rfl
  · exact digit_toLower h
  · decide
  · decide

/-- A renderable character (lowercased) is none of `e`, `b`, `u`, `$`. -/
theorem renderChar_not_currency {c : Char} (h : renderChar c) :
    c.toLower ≠ 'e' ∧ c.toLower ≠ 'b' ∧ c.toLower ≠ 'u' ∧ c ≠ '$' := by
  rw [renderChar_toLower h]
  rcases h with h | rfl | rfl
  · refine ⟨?_, ?_, ?_, ?_⟩ <;> intro he <;> subst he <;> exact absurd h (by decide)
  · refine ⟨by decide, by decide, by decide, by decide⟩
  · refine ⟨by decide, by decide, by decide, by decide⟩

/-- The currency stripper is the identity on renderable characters. -/
theorem stripCurrencyFuel_eq_self (fuel : ℕ) : ∀ cs : List Char,
    (∀ c ∈ cs, renderChar c) → stripCurrencyFuel fuel cs = cs := by
  induction fuel with
  | zero => intro cs _; rfl
  | succ fuel ih =>
    intro cs hcs
    cases cs with
    | nil => rfl
    | cons c rest =>
      obtain ⟨he, hb, hu, hd⟩ := renderChar_not_currency (hcs c (List.mem_cons_self c rest))
      unfold stripCurrencyFuel
      rw [if_neg, if_neg, if_neg, if_neg]
      · rw [ih rest (fun x hx => hcs x (List.mem_cons_of_mem c hx))]
      · simp [hd]
      · show ¬ (isPrefixList ['u', 's', 'd'] (lowerChars (c :: rest)) = true)
        unfold isPrefixList lowerChars
        simp only [List.map_cons]
        intro hpre
        rcases Bool.and_eq_true_iff.mp hpre with ⟨hh, -⟩
        exact hu (Eq.symm (by simpa using hh))
      · show ¬ (isPrefixList ['b', 'i', 'r', 'r'] (lowerChars (c :: rest)) = true)
        unfold isPrefixList lowerChars
        simp only [List.map_cons]
        intro hpre
        rcases Bool.and_eq_true_iff.mp hpre with ⟨hh, -⟩
        exact hb (Eq.symm (by simpa using hh))
      · show ¬ (isPrefixList ['e', 't', 'b'] (lowerChars (c :: rest)) = true)
        unfold isPrefixList lowerChars
        simp only [List.map_cons]
        intro hpre
        rcases Bool.and_eq_true_iff.mp hpre with ⟨hh, -⟩
        exact he (Eq.symm (by simpa using hh))

/-- The currency stripper is the identity on rendered amounts. -/
theorem stripCurrency_eq_self {cs : List Char} (h : ∀ c ∈ cs, renderChar c) :
    stripCurrency cs = cs :=
  stripCurrencyFuel_eq_self cs.length cs h

/-- Renderable characters survive the `[^\d.,-]` filter. -/
theorem renderChar_amountChar {c : Char} (h : renderChar c) : amountChar c = true := by
  rcases h with h | rfl | rfl
  · simp [amountChar, h]
  · decide
  · decide

/-- Renderable characters are not whitespace. -/
theorem renderChar_not_ws {c : Char} (h : renderChar c) : jsWs c = false := by
  rcases h with h | rfl | rfl
  · exact digit_not_ws h
  · decide
  · decide

/-- Renderable characters are not commas. -/
theorem renderChar_ne_comma {c : Char} (h : renderChar c) : c ≠ ',' := by
  rcases h with h | rfl | rfl
  · intro he; subst he; exact absurd h (by decide)
  · decide
  · decide

/-- `Rat.floor` agrees with the mathematical floor. -/
theorem ratFloor_eq (q : ℚ) : q.floor = ⌊q⌋ := by
  rw [Rat.floor_def', Rat.floor_def]

/-- The rendered body consists of digits and at most one point. -/
theorem amountBody_render (a : ℕ) : ∀ c ∈ amountBody a, c.isDigit = true ∨ c = '.' := by
  intro c hc
  unfold amountBody at hc
  split at hc
  · exact Or.inl (natToChars_digits _ c hc)
  · split at hc
    · rcases List.mem_append.mp hc with h | h
      · exact Or.inl (natToChars_digits _ c h)
      · rcases List.mem_cons.mp h with rfl | h
        · exact Or.inr rfl
        · simp at h
          subst h
          exact Or.inl (digitChar_isDigit (by omega))
    · rcases List.mem_append.mp hc with h | h
      · exact Or.inl (natToChars_digits _ c h)
      · rcases List.mem_cons.mp h with rfl | h
        · exact Or.inr rfl
        · rcases List.mem_cons.mp h with rfl | h
          · exact Or.inl (digitChar_isDigit (by omega))
          · simp at h
            subst h
            exact Or.inl (digitChar_isDigit (by omega))

/-- The rendered body is renderable. -/
theorem amountBody_renderChar (a : ℕ) : ∀ c ∈ amountBody a, renderChar c := by
  intro c hc
  rcases amountBody_render a c hc with h | rfl
  · exact Or.inl h
  · exact Or.inr (Or.inl rfl)

/-- The rendered body is never empty. -/
theorem amountBody_ne_nil (a : ℕ) : amountBody a ≠ [] := by
  unfold amountBody
  split
  · exact natToChars_ne_nil _
  · split <;> simp [natToChars_ne_nil]

/-- Parsing the rendered unsigned body recovers the value exactly. -/
theorem parseFloatUnsigned_amountBody (a : ℕ) :
    parseFloatUnsigned (amountBody a) = some ((a : ℚ) / 100) := by
  unfold amountBody
  by_cases h0 : a % 100 = 0
  · rw [if_pos h0]
    unfold parseFloatUnsigned
    rw [List.takeWhile_eq_self_iff.mpr (natToChars_digits _),
      List.dropWhile_eq_nil_iff.mpr (natToChars_digits _)]
    dsimp only
    rw [if_neg (natToChars_ne_nil _), digitsToNat_natToChars]
    congr 1
    obtain ⟨b, rfl⟩ := Nat.dvd_of_mod_eq_zero h0
    rw [Nat.mul_div_cancel_left b (by norm_num)]
    push_cast
    ring_nf
  · rw [if_neg h0]
    have hdot : ∀ (tail : List Char) (c : Char), ('.' :: tail).head? = some c →
        c.isDigit = false := by
      intro tail c hc
      injection hc with hc2
      subst hc2
      decide
    by_cases h10 : a % 100 % 10 = 0
    · rw [if_pos h10]
      unfold parseFloatUnsigned
      rw [takeWhile_append_of _ (natToChars_digits _) (hdot _),
        dropWhile_append_of _ (natToChars_digits _) (hdot _)]
      dsimp only
      rw [if_pos rfl]
      have hfp : List.takeWhile Char.isDigit [(a % 100 / 10).digitChar] =
          [(a % 100 / 10).digitChar] :=
        List.takeWhile_eq_self_iff.mpr (by
          intro x hx
          have hx2 : x = (a % 100 / 10).digitChar := by simpa using hx
          subst hx2
          exact digitChar_isDigit (by omega))
      rw [hfp, if_neg (by simp)]
      rw [digitsToNat_natToChars, digitsToNat_single, digitChar_toNat (by omega)]
      congr 1
      have key : (a : ℚ) = 100 * ((a / 100 : ℕ) : ℚ) + 10 * ((a % 100 / 10 : ℕ) : ℚ) := by
        have h1 : a = 100 * (a / 100) + 10 * (a % 100 / 10) := by omega
        exact_mod_cast congrArg (Nat.cast (R := ℚ)) h1
      rw [key]
      simp only [List.length_cons, List.length_nil]
      ring
    · rw [if_neg h10]
      unfold parseFloatUnsigned
      rw [takeWhile_append_of _ (natToChars_digits _) (hdot _),
        dropWhile_append_of _ (natToChars_digits _) (hdot _)]
      dsimp only
      rw [if_pos rfl]
      have hfp : List.takeWhile Char.isDigit
          [(a % 100 / 10).digitChar, (a % 100 % 10).digitChar] =
          [(a % 100 / 10).digitChar, (a % 100 % 10).digitChar] :=
        List.takeWhile_eq_self_iff.mpr (by
          intro x hx
          rcases List.mem_cons.mp hx with rfl | hx
          · exact digitChar_isDigit (by omega)
          · have hx2 : x = (a % 100 % 10).digitChar := by simpa using hx
            subst hx2
            exact digitChar_isDigit (by omega))
      rw [hfp, if_neg (by simp)]
      rw [digitsToNat_natToChars, digitsToNat_pair, digitChar_toNat (by omega),
        digitChar_toNat (by omega)]
      congr 1
      have key : (a : ℚ) = 100 * ((a / 100 : ℕ) : ℚ) +
          ((10 * (a % 100 / 10) + a % 100 % 10 : ℕ) : ℚ) := by
        have h1 : a = 100 * (a / 100) + (10 * (a % 100 / 10) + a % 100 % 10) := by omega
        exact_mod_cast congrArg (Nat.cast (R := ℚ)) h1
      rw [key]
      push_cast
      simp only [List.length_cons, List.length_nil]
      ring

/-- Parsing the full rendered amount (sign included) recovers `n/100`. -/
theorem parseFloatQ_render (n : ℤ) :
    parseFloatQ ((if n < 0 then ['-'] else []) ++ amountBody n.natAbs) =
      some ((n : ℚ) / 100) := by
  by_cases hn : n < 0
  · rw [if_pos hn, List.singleton_append]
    unfold parseFloatQ
    dsimp only
    rw [if_pos rfl, parseFloatUnsigned_amountBody]
    simp only [Option.map_some']
    congr 1
    have habs : ((n.natAbs : ℕ) : ℚ) = -(n : ℚ) := by
      rw [Int.cast_natAbs]
      exact_mod_cast abs_of_neg hn
    rw [habs]
    ring
  · rw [if_neg hn, List.nil_append]
    cases hb : amountBody n.natAbs with
    | nil => exact absurd hb (amountBody_ne_nil _)
    | cons c rest =>
      have hcmem : c ∈ amountBody n.natAbs := hb ▸ List.mem_cons_self c rest
      have hcd : ¬ c = '-' := by
        rcases amountBody_render _ c hcmem with h | rfl
        · intro he
          subst he
          exact absurd h (by decide)
        · decide
      unfold parseFloatQ
      dsimp only
      rw [if_neg hcd, ← hb, parseFloatUnsigned_amountBody]
      congr 1
      have habs : ((n.natAbs : ℕ) : ℚ) = (n : ℚ) := by
        rw [Int.cast_natAbs]
        exact_mod_cast abs_of_nonneg (not_lt.mp hn)
      rw [habs]

/-- A list avoiding a character does not `contains` it. -/
theorem contains_eq_false_of {cs : List Char} {a : Char} (h : ∀ c ∈ cs, c ≠ a) :
    cs.contains a = false := by
  cases hc : cs.contains a with
  | false => rfl
  | true =>
    obtain ⟨c, hcm, hbeq⟩ := List.contains_iff_exists_mem_beq.mp hc
    have he : a = c := by simpa using hbeq
    exact absurd he.symm (h c hcm)

/-- The amount normalizer recovers `n/100` from its decimal rendering. -/
theorem parseAmountCore_render (n : ℤ) :
    parseAmountCore ((if n < 0 then ['-'] else []) ++ amountBody n.natAbs) = (n : ℚ) / 100 := by
  have hgood : ∀ c ∈ (if n < 0 then ['-'] else []) ++ amountBody n.natAbs, renderChar c := by
    intro c hc
    rcases List.mem_append.mp hc with h | h
    · split at h
      · have hc2 : c = '-' := by simpa using h
        subst hc2
        exact Or.inr (Or.inr rfl)
      · simp at h
    · exact amountBody_renderChar _ c h
  have hne : (if n < 0 then ['-'] else []) ++ amountBody n.natAbs ≠ [] := by
    intro he
    rcases List.append_eq_nil.mp he with ⟨-, h2⟩
    exact amountBody_ne_nil _ h2
  have hcomma : ((if n < 0 then ['-'] else []) ++ amountBody n.natAbs).contains ',' = false :=
    contains_eq_false_of (fun c hc => renderChar_ne_comma (hgood c hc))
  unfold parseAmountCore
  rw [if_neg hne]
  simp only []
  rw [stripCurrency_eq_self hgood,
    List.filter_eq_self.mpr (fun c hc => renderChar_amountChar (hgood c hc)),
    trimChars_eq_self
      (fun c hc => renderChar_not_ws (hgood c (List.mem_of_mem_head? (by rw [hc]; rfl))))
      (fun c hc => renderChar_not_ws (hgood c (List.mem_of_getLast?_eq_some hc)))]
  rw [if_neg hne, hcomma]
  simp only [Bool.false_and, Bool.false_eq_true, if_false]
  rw [parseFloatQ_render]
  dsimp only
  have harg : ((n : ℚ) / 100) * 100 = (n : ℚ) := div_mul_cancel₀ _ (by norm_num)
  have hround : jsRound ((n : ℚ)) = n := by
    rw [jsRound_eq, add_comm, Int.floor_add_int]
    norm_num
  rw [harg, hround]

/-- Re-parsing the decimal rendering of any `parseAmount` result gives it
back exactly. -/
theorem parseAmount_render_roundtrip (n : ℤ) :
    parseAmount (renderAmount ((n : ℚ) / 100)) = (n : ℚ) / 100 := by
  have hk : (((n : ℚ) / 100) * 100).floor = n := by
    rw [div_mul_cancel₀ _ (by norm_num : (100 : ℚ) ≠ 0), ratFloor_eq, Int.floor_intCast]
  show parseAmountCore (renderAmount ((n : ℚ) / 100)).data = _
  have hdata : (renderAmount ((n : ℚ) / 100)).data =
      (if n < 0 then ['-'] else []) ++ amountBody n.natAbs := by
    simp only [renderAmount, hk]
  rw [hdata, parseAmountCore_render]

/-- C6: the amount normalizer is idempotent on its own canonical output:
re-parsing the decimal string rendering of any `parseAmount` result yields
the same value. -/
theorem c6_parse_amount_idempotent (s : String) :
    parseAmount (renderAmount (parseAmount s)) = parseAmount s := by
  obtain ⟨n, hn⟩ := parseAmount_form s
  rw [hn, parseAmount_render_roundtrip]

/-! ## The zero-zero validator message (claim C9)

The only delicate point is that membership of
`Transaction i: Both debit and credit are zero` in the error list must pin
down both the index and the rule: the decimal index rendering is injective,
and no other rule can produce this message text. -/

/-- `natToString` is injective (it is inverted by `digitsToNat`). -/
theorem natToChars_inj {a b : ℕ} (h : natToChars a = natToChars b) : a = b := by
  have h2 := congrArg digitsToNat h
  rwa [digitsToNat_natToChars, digitsToNat_natToChars] at h2

/-- Two digit runs followed by non-digit remainders can only agree by
agreeing componentwise. -/
theorem digitRun_append_inj : ∀ {xs ys as bs : List Char},
    (∀ c ∈ xs, c.isDigit = true) → (∀ c ∈ ys, c.isDigit = true) →
    (∀ c, as.head? = some c → c.isDigit = false) →
    (∀ c, bs.head? = some c → c.isDigit = false) →
    xs ++ as = ys ++ bs → xs = ys ∧ as = bs := by
  intro xs
  induction xs with
  | nil =>
    intro ys as bs _ hy ha _ h
    cases ys with
    | nil => exact ⟨rfl, h⟩
    | cons y yt =>
      exfalso
      have hhead : as.head? = some y := by
        rw [List.nil_append] at h
        rw [h]
        rfl
      have hyd := hy y (List.mem_cons_self y yt)
      rw [ha y hhead] at hyd
      exact absurd hyd (by simp)
  | cons x xt ih =>
    intro ys as bs hx hy ha hb h
    cases ys with
    | nil =>
      exfalso
      have hhead : bs.head? = some x := by
        rw [List.nil_append] at h
        rw [← h]
        rfl
      have hxd := hx x (List.mem_cons_self x xt)
      rw [hb x hhead] at hxd
      exact absurd hxd (by simp)
    | cons y yt =>
      rw [List.cons_append, List.cons_append] at h
      injection h with h1 h2
      subst h1
      obtain ⟨hl, hr⟩ := ih (fun c hc => hx c (List.mem_cons_of_mem x hc))
        (fun c hc => hy c (List.mem_cons_of_mem x hc)) ha hb h2
      exact ⟨by rw [hl], hr⟩

/-- The validator's message maker is injective in the index and the
suffix: the `: ` separator ends the digit run of the index. -/
theorem mkMsg_inj {a b : ℕ} {s t : String}
    (h : mkMsg a s = mkMsg b t) : a = b ∧ s = t := by
  have hdata := congrArg String.data h
  simp only [mkMsg, natToString, String.data_append, List.append_assoc] at hdata
  have hcancel := List.append_cancel_left hdata
  have hdig := digitRun_append_inj (natToChars_digits a) (natToChars_digits b)
    (fun c hc => by
      rw [show (([':', ' '] ++ s.data) : List Char).head? = some ':' from rfl] at hc
      injection hc with h2
      subst h2
      decide)
    (fun c hc => by
      rw [show (([':', ' '] ++ t.data) : List Char).head? = some ':' from rfl] at hc
      injection hc with h2
      subst h2
      decide)
    hcancel
  obtain ⟨h1, h2⟩ := hdig
  refine ⟨natToChars_inj h1, ?_⟩
  exact String.ext (List.append_cancel_left h2)

/-- Membership in a singleton guarded by a condition. -/
theorem mem_if_singleton {c : Prop} [Decidable c] {m msg : String} :
    (msg ∈ if c then [m] else []) ↔ c ∧ msg = m := by
  split <;> simp_all

/-- The head of an append with a non-empty known left part. -/
theorem head?_append_left {x y : List Char} {c : Char} (h : x.head? = some c) :
    (x ++ y).head? = some c := by
  cases x with
  | nil => exact absurd h (by simp)
  | cons a t =>
    injection h with h2
    subst h2
    rfl

/-- A suffix that does not start with `B` is not the zero-zero suffix. -/
theorem zeroSuffix_ne_of_head {t : String} {c : Char}
    (hh : t.data.head? = some c) (hc : c ≠ 'B') :
    "Both debit and credit are zero" ≠ t := by
  intro he
  rw [← he] at hh
  have hB : ("Both debit and credit are zero").data.head? = some 'B' := by decide!
  rw [hB] at hh
  injection hh with h2
  exact hc h2.symm

/-- The zero-zero message never arises from a guard with a different
suffix. -/
theorem zeroMsg_not_mem_guard {c : Prop} [Decidable c] {j i : ℕ} {sfx : String}
    (hne : "Both debit and credit are zero" ≠ sfx) :
    mkMsg (i + 1) "Both debit and credit are zero" ∉
      (if c then [mkMsg (j + 1) sfx] else []) := by
  intro hmem
  obtain ⟨-, heq⟩ := mem_if_singleton.mp hmem
  obtain ⟨-, hsfx⟩ := mkMsg_inj heq
  exact hne hsfx

/-- The head of the invalid-book-date suffix. -/
theorem invalidBookDate_head (bd : String) :
    ("Invalid book date format (" ++ bd ++ ")").data.head? = some 'I' := by
  rw [String.data_append, String.data_append]
  exact head?_append_left (head?_append_left (by decide!))

/-- The head of the negative-debit suffix. -/
theorem negDebit_head (r : String) :
    ("Debit amount is negative (" ++ r ++ ")").data.head? = some 'D' := by
  rw [String.data_append, String.data_append]
  exact head?_append_left (head?_append_left (by decide!))

/-- The head of the negative-credit suffix. -/
theorem negCredit_head (r : String) :
    ("Credit amount is negative (" ++ r ++ ")").data.head? = some 'C' := by
  rw [String.data_append, String.data_append]
  exact head?_append_left (head?_append_left (by decide!))

/-- The zero-zero message of index `i + 1` occurs among the messages of
record `j` exactly when `i = j` and both amounts are zero. -/
theorem zeroMsg_mem_recordErrors (j : ℕ) (t : ParsedTransaction) (i : ℕ) :
    mkMsg (i + 1) "Both debit and credit are zero" ∈ recordErrors j t ↔
      (i = j ∧ t.debit = 0 ∧ t.credit = 0) := by
  constructor
  · intro hmem
    unfold recordErrors at hmem
    simp only [List.mem_append] at hmem
    rcases hmem with ((((h1 | h2) | h3) | h4) | h5) | h6
    · exfalso
      split at h1
      · have heq := List.mem_singleton.mp h1
        obtain ⟨-, hsfx⟩ := mkMsg_inj heq
        exact absurd hsfx (by decide!)
      · split at h1
        · have heq := List.mem_singleton.mp h1
          obtain ⟨-, hsfx⟩ := mkMsg_inj heq
          exact zeroSuffix_ne_of_head (invalidBookDate_head _) (by decide) hsfx
        · simp at h1
    · exact absurd h2 (zeroMsg_not_mem_guard (by decide!))
    · exact absurd h3 (zeroMsg_not_mem_guard (by decide!))
    · obtain ⟨⟨hd, hc⟩, heq⟩ := mem_if_singleton.mp h4
      obtain ⟨hidx, -⟩ := mkMsg_inj heq
      exact ⟨by omega, hd, hc⟩
    · exact absurd h5 (zeroMsg_not_mem_guard
        (zeroSuffix_ne_of_head (negDebit_head _) (by decide)))
    · exact absurd h6 (zeroMsg_not_mem_guard
        (zeroSuffix_ne_of_head (negCredit_head _) (by decide)))
  · rintro ⟨rfl, hd, hc⟩
    unfold recordErrors
    refine List.mem_append.mpr (Or.inl ?_)
    refine List.mem_append.mpr (Or.inl ?_)
    refine List.mem_append.mpr (Or.inr ?_)
    exact mem_if_singleton.mpr ⟨⟨hd, hc⟩, rfl⟩

/-- Witness for C10: `"15 Foo 2024"` satisfies every hypothesis and the
theorem applies to it, giving `"2024-01-15"`. -/
theorem c10_unknown_month_defaults_witness :
    parseDateFlexible (String.mk (['1', '5'] ++ ' ' :: (['F', 'o', 'o'] ++ ' ' :: ['2', '0', '2', '4']))) =
      String.mk (['2', '0', '2', '4'] ++ '-' :: ('0' :: '1' :: '-' :: padStart2 ['1', '5'])) ∧
    parseDateFlexible (String.mk (['1', '5'] ++ ' ' :: (['F', 'o', 'o'] ++ ' ' :: ['2', '0', '2', '4']))) ≠
      String.mk (['1', '5'] ++ ' ' :: (['F', 'o', 'o'] ++ ' ' :: ['2', '0', '2', '4'])) :=
  c10_unknown_month_defaults ['1', '5'] ['F', 'o', 'o'] ['2', '0', '2', '4']
    ⟨by decide, by decide, by decide⟩ ⟨by decide, by decide⟩ (by decide) ⟨by decide, by decide⟩

/-- C9: For every non-empty transaction list, the validator emits the
per-record error "Both debit and credit are zero" for the transaction at
zero-based index `i` (1-indexed as `i + 1` in the message) if and only if
that transaction has debit 0 and credit 0. -/
theorem c9_zero_zero_error_iff (ts : List ParsedTransaction) (hne : ts ≠ [])
    (i : Fin ts.length) :
    mkMsg ((i : ℕ) + 1) "Both debit and credit are zero" ∈
      (validateTransactions ts).errors ↔
      (ts.get i).debit = 0 ∧ (ts.get i).credit = 0 := by
  simp only [validateTransactions, if_neg hne, List.mem_flatten, List.mem_map]
  constructor
  · rintro ⟨l, ⟨⟨j, t⟩, hmem, rfl⟩, hin⟩
    obtain ⟨hij, hd, hc⟩ := (zeroMsg_mem_recordErrors j t i.val).mp hin
    have hget : ts[j]? = some t := List.mk_mem_enum_iff_getElem?.mp hmem
    subst hij
    have h1 : ts[i.val]? = some (ts[i.val]) := List.getElem?_eq_getElem i.isLt
    rw [hget] at h1
    injection h1 with h2
    simp only [List.get_eq_getElem]
    exact ⟨h2 ▸ hd, h2 ▸ hc⟩
  · rintro ⟨hd, hc⟩
    refine ⟨recordErrors i.val (ts.get i), ⟨⟨i.val, ts.get i⟩, ?_, rfl⟩, ?_⟩
    · refine List.mk_mem_enum_iff_getElem?.mpr ?_
      rw [List.get_eq_getElem]
      exact List.getElem?_eq_getElem i.isLt
    · exact (zeroMsg_mem_recordErrors i.val (ts.get i) i.val).mpr ⟨rfl, hd, hc⟩

/-- A transaction with debit 0 and nonzero credit, for the C9 witness. -/
def c9tx : ParsedTransaction :=
  ⟨"2024-01-01", none, "REF", "desc", 0, 150, none⟩

/-- Witness for C9: the singleton list holding a transaction with debit 0
and credit 150 receives no zero-zero error for its only record. -/
theorem c9_zero_zero_error_iff_witness :
    mkMsg 1 "Both debit and credit are zero" ∉
      (validateTransactions [c9tx]).errors := fun hmem =>
  absurd ((c9_zero_zero_error_iff [c9tx] (by decide!) ⟨0, by decide⟩).mp hmem)
    (by decide!)

end FileParsing
